import Mathlib

/-!
# External scanner of tree-sitter-zag (src/scanner.c)

A shallow embedding of the external scanner: the host lexer is an explicit
state record, every C loop is a recursive function on that record, and the
entry point returns the verdict together with the lexer it leaves behind.
-/

namespace Zag

/-- The external token kinds, in the order of `enum TokenType`. -/
inductive TokenType where
  | AUTOMATIC_SEMICOLON
  | TEMPLATE_CHARS
  | TERNARY_QMARK
  deriving DecidableEq, Repr

/-- The integer value the C enum gives to each kind. -/
def TokenType.toNat : TokenType → Nat
  | .AUTOMATIC_SEMICOLON => 0
  | .TEMPLATE_CHARS => 1
  | .TERNARY_QMARK => 2

/-- Modelled from the spec: the host character-stream cursor `TSLexer`, whose
declaration (tree_sitter/parser.h) is not among the sources. `input` is the
whole source text as code points (the `int32_t` values `lookahead` takes),
`pos` the cursor offset, `result_symbol` the reported token kind, `token_end`
the boundary set by `mark_end` (`none` while no mark was set), and `log` the
record of every `advance` call made so far, oldest first: the offset it was
made at and its `skip` flag (`true` = discard, `false` = include in token). -/
structure TSLexer where
  input : List Int
  pos : Nat
  result_symbol : Nat
  token_end : Option Nat
  log : List (Nat × Bool)
  deriving DecidableEq, Repr

/-- Modelled from the spec: `lexer->lookahead`, the code point under the cursor,
and the sentinel 0 at end-of-input. A NUL code point inside the text also reads
as 0, which is why the host offers `eof` separately. -/
def TSLexer.lookahead (l : TSLexer) : Int :=
  l.input.getD l.pos 0

/-- Modelled from the spec: `lexer->eof(lexer)`, true exactly when the cursor is
past the last character. -/
def TSLexer.eof (l : TSLexer) : Bool :=
  decide (l.input.length ≤ l.pos)

/-- Modelled from the spec: `lexer->advance(lexer, skip)`. It moves the cursor one
character forward, and does not move it at end-of-input; the call is logged
either way. -/
def TSLexer.advance (l : TSLexer) (skip : Bool) : TSLexer :=
  if l.pos < l.input.length then
    { l with pos := l.pos + 1, log := l.log ++ [(l.pos, skip)] }
  else
    { l with log := l.log ++ [(l.pos, skip)] }

/-- Modelled from the spec: `lexer->mark_end(lexer)`, which records the cursor
offset as the end of the token. -/
def TSLexer.mark_end (l : TSLexer) : TSLexer :=
  { l with token_end := some l.pos }

/-- Number of characters from the cursor to the end of the input. -/
def TSLexer.remaining (l : TSLexer) : Nat :=
  l.input.length - l.pos

/-- Source `advance`: consume one character as part of the token. -/
def advance (l : TSLexer) : TSLexer :=
  l.advance false

/-- Source `skip`: consume one character as trivia. -/
def skip (l : TSLexer) : TSLexer :=
  l.advance true

/-- A nonzero lookahead means the cursor is on a character. -/
theorem pos_lt_of_lookahead_ne_zero (l : TSLexer) (h : l.lookahead ≠ 0) :
    l.pos < l.input.length := by
  by_contra hlt
  apply h
  unfold TSLexer.lookahead
  rw [List.getD_eq_default]
  omega

/-- Skipping a character the cursor is on shortens the remaining input. -/
theorem remaining_skip_lt (l : TSLexer) (h : l.pos < l.input.length) :
    (skip l).remaining < l.remaining := by
  simp only [skip, TSLexer.advance, TSLexer.remaining, if_pos h]
  omega

/-- Skipping never lengthens the remaining input. -/
theorem remaining_skip_le (l : TSLexer) : (skip l).remaining ≤ l.remaining := by
  unfold skip TSLexer.advance TSLexer.remaining
  split <;> simp only <;> omega

/-- How a loop of the scanner is left: by a `return` of the enclosing function
with a verdict, or by `break` with the current value of `sameline`. -/
inductive LoopExit where
  | ret (verdict : Bool) (l : TSLexer)
  | brk (l : TSLexer) (sameline : Bool)
  deriving DecidableEq, Repr

/-- The lexer a loop leaves behind. -/
def LoopExit.lexer : LoopExit → TSLexer
  | .ret _ l => l
  | .brk l _ => l

/-- Lines 94-96 of scan_automatic_semicolon: the line-comment loop
`while (lookahead != 0 && lookahead != '\n') skip(lexer);`. -/
def line_comment_loop (l : TSLexer) : TSLexer :=
  if h : l.lookahead ≠ 0 ∧ l.lookahead ≠ 10 then
    line_comment_loop (skip l)
  else
    l
termination_by l.remaining
decreasing_by exact remaining_skip_lt l (pos_lt_of_lookahead_ne_zero l h.1)

/-- Lines 104-106 of scan_automatic_semicolon: `if (lookahead == '\n') sameline = false;`,
the value of `sameline` after the test. -/
def sameline_after (l : TSLexer) (sameline : Bool) : Bool :=
  if l.lookahead = 10 then false else sameline

/-- Lines 100-116 of scan_automatic_semicolon: the block-comment loop, entered
after the opening slash and star were skipped. `ret false` is the
`return false` on a zero lookahead, `brk` the `break` after the closing
star and slash. -/
def block_comment_loop (l : TSLexer) (sameline : Bool) : LoopExit :=
  if h0 : l.lookahead = 0 then
    .ret false l
  else if l.lookahead = 42 then
    if (skip l).lookahead = 47 then
      .brk (skip (skip l)) (sameline_after l sameline)
    else
      block_comment_loop (skip l) (sameline_after l sameline)
  else
    block_comment_loop (skip l) (sameline_after l sameline)
termination_by l.remaining
decreasing_by
  all_goals exact remaining_skip_lt l (pos_lt_of_lookahead_ne_zero l h0)

/-- The line-comment loop never lengthens the remaining input. -/
theorem remaining_line_comment_loop (l : TSLexer) :
    (line_comment_loop l).remaining ≤ l.remaining := by
  induction l using line_comment_loop.induct with
  | case1 l h ih =>
    rw [line_comment_loop, dif_pos h]
    exact le_trans ih (remaining_skip_le l)
  | case2 l h =>
    rw [line_comment_loop, dif_neg h]

/-- The block-comment loop never lengthens the remaining input. -/
theorem remaining_block_comment_loop (l : TSLexer) (s : Bool) :
    (block_comment_loop l s).lexer.remaining ≤ l.remaining := by
  induction l, s using block_comment_loop.induct with
  | case1 l s h0 =>
    rw [block_comment_loop, dif_pos h0]
    exact le_refl _
  | case2 l s h0 h42 h47 =>
    rw [block_comment_loop, dif_neg h0, if_pos h42, if_pos h47]
    exact le_trans (remaining_skip_le _) (remaining_skip_le l)
  | case3 l s h0 h42 h47 ih =>
    rw [block_comment_loop, dif_neg h0, if_pos h42, if_neg h47]
    exact le_trans ih (remaining_skip_le l)
  | case4 l s h0 h42 ih =>
    rw [block_comment_loop, dif_neg h0, if_neg h42]
    exact le_trans ih (remaining_skip_le l)

/-- Lines 80-123 of scan_automatic_semicolon: the outer `for (;;)` loop.
`ret true` is the `return true` at end-of-input, `ret false` a `return false`
from a bare slash or an unclosed block comment, `brk` the final `break`. -/
def semicolon_loop (l : TSLexer) (sameline : Bool) : LoopExit :=
  if he : l.eof = true then
    .ret true l
  else if l.lookahead = 32 ∨ l.lookahead = 9 ∨ l.lookahead = 13 then
    semicolon_loop (skip l) sameline
  else if l.lookahead = 10 then
    semicolon_loop (skip l) false
  else if l.lookahead = 47 then
    if (skip l).lookahead = 47 then
      semicolon_loop (line_comment_loop (skip l)) sameline
    else if (skip l).lookahead = 42 then
      match hb : block_comment_loop (skip (skip l)) sameline with
      | .ret _ r => .ret false r
      | .brk r sameline1 => semicolon_loop r sameline1
    else
      .ret false (skip l)
  else
    .brk l sameline
termination_by l.remaining
decreasing_by
  all_goals
    have hlt : l.pos < l.input.length := by
      simpa [TSLexer.eof] using he
    have h1 := remaining_skip_lt l hlt
  · exact h1
  · exact h1
  · exact lt_of_le_of_lt (remaining_line_comment_loop _) h1
  · have h2 := remaining_block_comment_loop (skip (skip l)) sameline
    rw [hb] at h2
    exact lt_of_le_of_lt (le_trans h2 (remaining_skip_le _)) h1

/-- Lines 75-138: `scan_automatic_semicolon`. The result is the verdict and the
lexer the call leaves behind. -/
def scan_automatic_semicolon (l : TSLexer) : Bool × TSLexer :=
  let l1 := { l with result_symbol := TokenType.AUTOMATIC_SEMICOLON.toNat }
  let l2 := l1.mark_end
  match semicolon_loop l2 true with
  | .ret verdict r => (verdict, r)
  | .brk r sameline =>
    if sameline then
      (false, r)
    else if r.lookahead = 125 ∨ r.lookahead = 41 ∨ r.lookahead = 93 then
      (true, r)
    else
      (false, r)

/-- Lines 140-146: `tree_sitter_zag_external_scanner_scan`. The payload is the
null pointer `create` returns and carries nothing; `valid_symbols` is the
candidate array indexed by token kind. -/
def tree_sitter_zag_external_scanner_scan (_payload : Unit) (l : TSLexer)
    (valid_symbols : TokenType → Bool) : Bool × TSLexer :=
  if valid_symbols TokenType.AUTOMATIC_SEMICOLON then
    scan_automatic_semicolon l
  else
    (false, l)

/-- Lines 12-14: `tree_sitter_zag_external_scanner_create` returns the null pointer.
The payload type has that one value: the scanner keeps no state. -/
def tree_sitter_zag_external_scanner_create : Unit :=
  ()

/-- Lines 16-17: `tree_sitter_zag_external_scanner_destroy`, an empty body. -/
def tree_sitter_zag_external_scanner_destroy (_payload : Unit) : Unit :=
  ()

/-- Lines 19-21: `tree_sitter_zag_external_scanner_serialize`. The result is the
returned length and the buffer as the call leaves it. -/
def tree_sitter_zag_external_scanner_serialize (_payload : Unit) (buffer : List Int) :
    Nat × List Int :=
  (0, buffer)

/-- Lines 23-24: `tree_sitter_zag_external_scanner_deserialize`, an empty body. The
result is the payload as the call leaves it. -/
def tree_sitter_zag_external_scanner_deserialize (payload : Unit) (_buffer : List Int)
    (_length : Nat) : Unit :=
  payload

/-- Modelled from the spec: the is-whitespace predicate `iswspace` of <wctype.h> for
the scanning locale, which is not part of the sources. It is not true of 0: the
loop of line 36 reads 0 at end-of-input, where `skip` does not move the cursor. -/
structure Locale where
  iswspace : Int → Bool
  nul_not_space : iswspace 0 = false

/-- The "C" locale: space, tab, newline, vertical tab, form feed, carriage return. -/
def cLocale : Locale where
  iswspace := fun c => decide (c = 32 ∨ c = 9 ∨ c = 10 ∨ c = 11 ∨ c = 12 ∨ c = 13)
  nul_not_space := by decide

/-- Lines 36-38 of scan_whitespace: `while (iswspace(lookahead)) skip(lexer);`. -/
def whitespace_loop (loc : Locale) (l : TSLexer) : TSLexer :=
  if h : loc.iswspace l.lookahead = true then
    whitespace_loop loc (skip l)
  else
    l
termination_by l.remaining
decreasing_by
  apply remaining_skip_lt
  apply pos_lt_of_lookahead_ne_zero
  intro h0
  rw [h0, loc.nul_not_space] at h
  exact Bool.noConfusion h

/-- Lines 45-47 of scan_whitespace: the line-comment loop
`while (lookahead != 0 && lookahead != '\n' && lookahead != '\r') skip(lexer);`. -/
def whitespace_line_comment_loop (l : TSLexer) : TSLexer :=
  if h : l.lookahead ≠ 0 ∧ l.lookahead ≠ 10 ∧ l.lookahead ≠ 13 then
    whitespace_line_comment_loop (skip l)
  else
    l
termination_by l.remaining
decreasing_by exact remaining_skip_lt l (pos_lt_of_lookahead_ne_zero l h.1)

/-- Lines 50-63 of scan_whitespace: the block-comment loop. The flag is false for
the `return false` on a zero lookahead and true for the `break` after the closer. -/
def whitespace_block_comment_loop (l : TSLexer) : Bool × TSLexer :=
  if h0 : l.lookahead = 0 then
    (false, l)
  else if l.lookahead = 42 then
    if (skip l).lookahead = 47 then
      (true, skip (skip l))
    else
      whitespace_block_comment_loop (skip l)
  else
    whitespace_block_comment_loop (skip l)
termination_by l.remaining
decreasing_by
  all_goals exact remaining_skip_lt l (pos_lt_of_lookahead_ne_zero l h0)

theorem remaining_whitespace_loop (loc : Locale) (l : TSLexer) :
    (whitespace_loop loc l).remaining ≤ l.remaining := by
  induction l using whitespace_loop.induct loc with
  | case1 l h ih =>
    rw [whitespace_loop, dif_pos h]
    exact le_trans ih (remaining_skip_le l)
  | case2 l h =>
    rw [whitespace_loop, dif_neg h]

theorem remaining_whitespace_line_comment_loop (l : TSLexer) :
    (whitespace_line_comment_loop l).remaining ≤ l.remaining := by
  induction l using whitespace_line_comment_loop.induct with
  | case1 l h ih =>
    rw [whitespace_line_comment_loop, dif_pos h]
    exact le_trans ih (remaining_skip_le l)
  | case2 l h =>
    rw [whitespace_line_comment_loop, dif_neg h]

theorem remaining_whitespace_block_comment_loop (l : TSLexer) :
    (whitespace_block_comment_loop l).2.remaining ≤ l.remaining := by
  induction l using whitespace_block_comment_loop.induct with
  | case1 l h0 =>
    rw [whitespace_block_comment_loop, dif_pos h0]
  | case2 l h0 h42 h47 =>
    rw [whitespace_block_comment_loop, dif_neg h0, if_pos h42, if_pos h47]
    exact le_trans (remaining_skip_le _) (remaining_skip_le l)
  | case3 l h0 h42 h47 ih =>
    rw [whitespace_block_comment_loop, dif_neg h0, if_pos h42, if_neg h47]
    exact le_trans ih (remaining_skip_le l)
  | case4 l h0 h42 ih =>
    rw [whitespace_block_comment_loop, dif_neg h0, if_neg h42]
    exact le_trans ih (remaining_skip_le l)

/-- Lines 34-73: `scan_whitespace`, whose body is one `for (;;)` loop. The result is
the returned flag and the lexer the call leaves behind. -/
def scan_whitespace (loc : Locale) (l : TSLexer) : Bool × TSLexer :=
  if h : (whitespace_loop loc l).lookahead = 47 then
    if (skip (whitespace_loop loc l)).lookahead = 47 then
      scan_whitespace loc (whitespace_line_comment_loop (skip (skip (whitespace_loop loc l))))
    else if (skip (whitespace_loop loc l)).lookahead = 42 then
      match hb : whitespace_block_comment_loop (skip (skip (whitespace_loop loc l))) with
      | (false, r) => (false, r)
      | (true, r) => scan_whitespace loc r
    else
      (false, skip (whitespace_loop loc l))
  else
    (true, whitespace_loop loc l)
termination_by l.remaining
decreasing_by
  all_goals
    have h1 : (skip (whitespace_loop loc l)).remaining < l.remaining :=
      lt_of_lt_of_le
        (remaining_skip_lt _ (pos_lt_of_lookahead_ne_zero _ (by rw [h]; decide)))
        (remaining_whitespace_loop loc l)
    have h2 := remaining_skip_le (skip (whitespace_loop loc l))
  · exact lt_of_le_of_lt (le_trans (remaining_whitespace_line_comment_loop _) h2) h1
  · have h3 := remaining_whitespace_block_comment_loop (skip (skip (whitespace_loop loc l)))
    rw [hb] at h3
    exact lt_of_le_of_lt (le_trans h3 h2) h1

/-- The characters from the cursor to the end of the input. -/
def TSLexer.rest (l : TSLexer) : List Int :=
  l.input.drop l.pos

/-- The lexer after `n` characters were consumed in discard mode: the cursor is
`n` further and the log has one discard entry per offset passed. -/
def skips (n : Nat) (l : TSLexer) : TSLexer :=
  { l with pos := l.pos + n, log := l.log ++ (List.range' l.pos n).map (fun p => (p, true)) }

/-- The lexer `r` is `l` after some characters of the input were consumed, all of
them in discard mode and none past the end; nothing else differs. -/
def Frame (l r : TSLexer) : Prop :=
  ∃ n, n ≤ l.remaining ∧ r = skips n l

/-- A newline lies at an offset the cursor passed on the way from `l` to `r`. -/
def crossedNewline (l r : TSLexer) : Prop :=
  ∃ p, l.pos ≤ p ∧ p < r.pos ∧ l.input[p]? = some 10

/-- A newline was consumed on the way from `l` to `r`: it lies at an offset the
cursor passed, and an `advance` call in discard mode was logged at that offset
after the calls `l` already had. -/
def consumedNewline (l r : TSLexer) : Prop :=
  ∃ p, l.pos ≤ p ∧ p < r.pos ∧ l.input[p]? = some 10 ∧ (p, true) ∈ r.log.drop l.log.length

/-- The lexer as lines 76-77 leave it: the result kind is written and the token
end is marked at the cursor. -/
def armed (l : TSLexer) : TSLexer :=
  ({ l with result_symbol := TokenType.AUTOMATIC_SEMICOLON.toNat }).mark_end

/-- Space, tab, carriage return or newline. -/
def isBlank (c : Int) : Prop :=
  c = 32 ∨ c = 9 ∨ c = 13 ∨ c = 10

/-- Space, tab or carriage return. -/
def isHSpace (c : Int) : Prop :=
  c = 32 ∨ c = 9 ∨ c = 13

/-- One of the closing brackets '}', ')' and ']' of the final switch. -/
def isCloser (c : Int) : Prop :=
  c = 125 ∨ c = 41 ∨ c = 93

instance : DecidablePred isBlank := fun c => by
  unfold isBlank
  infer_instance

instance : DecidablePred isHSpace := fun c => by
  unfold isHSpace
  infer_instance

instance : DecidablePred isCloser := fun c => by
  unfold isCloser
  infer_instance

/-- The same lexer over another input text. -/
def TSLexer.withInput (l : TSLexer) (input : List Int) : TSLexer :=
  { l with input := input }

/-- The same loop exit with the lexer put over another input text. -/
def LoopExit.withInput : LoopExit → List Int → LoopExit
  | .ret verdict l, input => .ret verdict (l.withInput input)
  | .brk l sameline, input => .brk (l.withInput input) sameline

/-- The text `input` agrees with the text of `l` at every offset from the cursor
of `l` to offset `b`, both included. Agreement at an offset means the same
character, or both texts ended: the two texts also agree on where they end, if
that is within the range. -/
def Agree (input : List Int) (l : TSLexer) (b : Nat) : Prop :=
  ∀ p, l.pos ≤ p → p ≤ b → l.input[p]? = input[p]?

/-! ## The lexer model -/

theorem lookahead_eq_headD (l : TSLexer) : l.lookahead = l.rest.headD 0 := by
  unfold TSLexer.lookahead TSLexer.rest
  rw [List.getD_eq_getElem?_getD, List.headD_eq_head?_getD, List.head?_drop]

theorem eof_iff_rest (l : TSLexer) : l.eof = true ↔ l.rest = [] := by
  unfold TSLexer.eof TSLexer.rest
  rw [decide_eq_true_iff, List.drop_eq_nil_iff]

theorem pos_lt_of_rest_cons {l : TSLexer} {x : Int} {xs : List Int}
    (h : l.rest = x :: xs) : l.pos < l.input.length := by
  by_contra hlt
  have hnil : l.rest = [] := by
    unfold TSLexer.rest
    rw [List.drop_eq_nil_iff]
    omega
  rw [hnil] at h
  exact List.noConfusion h

theorem skips_zero (l : TSLexer) : skips 0 l = l := by
  simp [skips]

theorem skips_skips (m n : Nat) (l : TSLexer) : skips m (skips n l) = skips (n + m) l := by
  simp only [skips, List.append_assoc, ← List.map_append, Nat.add_assoc]
  congr 3
  rw [List.range'_append_1, Nat.add_comm]

theorem skip_eq_skips {l : TSLexer} (h : l.pos < l.input.length) : skip l = skips 1 l := by
  simp [skip, TSLexer.advance, skips, h]

theorem skips_input (n : Nat) (l : TSLexer) : (skips n l).input = l.input := rfl

theorem skips_pos (n : Nat) (l : TSLexer) : (skips n l).pos = l.pos + n := rfl

theorem skips_rest (n : Nat) (l : TSLexer) : (skips n l).rest = l.rest.drop n := by
  simp only [TSLexer.rest, skips, List.drop_drop]

theorem skips_remaining (n : Nat) (l : TSLexer) :
    (skips n l).remaining = l.remaining - n := by
  simp only [TSLexer.remaining, skips]
  omega

theorem remaining_eq_length_rest (l : TSLexer) : l.remaining = l.rest.length := by
  simp [TSLexer.remaining, TSLexer.rest]

theorem Frame.refl (l : TSLexer) : Frame l l :=
  ⟨0, Nat.zero_le _, (skips_zero l).symm⟩

theorem Frame.trans {l r q : TSLexer} (h1 : Frame l r) (h2 : Frame r q) : Frame l q := by
  obtain ⟨n, hn, rfl⟩ := h1
  obtain ⟨m, hm, rfl⟩ := h2
  rw [skips_remaining] at hm
  exact ⟨n + m, by omega, skips_skips m n l⟩

theorem Frame.skips {l : TSLexer} {n : Nat} (h : n ≤ l.remaining) : Frame l (skips n l) :=
  ⟨n, h, rfl⟩

theorem Frame.skip {l : TSLexer} (h : l.pos < l.input.length) : Frame l (skip l) := by
  refine ⟨1, ?_, skip_eq_skips h⟩
  unfold TSLexer.remaining
  omega

theorem Frame.input_eq {l r : TSLexer} (h : Frame l r) : r.input = l.input := by
  obtain ⟨n, _, rfl⟩ := h
  rfl

theorem Frame.symbol_eq {l r : TSLexer} (h : Frame l r) :
    r.result_symbol = l.result_symbol := by
  obtain ⟨n, _, rfl⟩ := h
  rfl

theorem Frame.token_end_eq {l r : TSLexer} (h : Frame l r) : r.token_end = l.token_end := by
  obtain ⟨n, _, rfl⟩ := h
  rfl

theorem Frame.pos_le {l r : TSLexer} (h : Frame l r) : l.pos ≤ r.pos := by
  obtain ⟨n, _, rfl⟩ := h
  exact Nat.le_add_right _ _

theorem lookahead_of_rest_cons {l : TSLexer} {x : Int} {xs : List Int}
    (h : l.rest = x :: xs) : l.lookahead = x := by
  rw [lookahead_eq_headD, h]
  rfl

theorem lookahead_of_rest_nil {l : TSLexer} (h : l.rest = []) : l.lookahead = 0 := by
  rw [lookahead_eq_headD, h]
  rfl

theorem eof_false_of_rest_cons {l : TSLexer} {x : Int} {xs : List Int}
    (h : l.rest = x :: xs) : ¬ l.eof = true := by
  rw [eof_iff_rest, h]
  exact List.cons_ne_nil x xs

theorem skip_of_rest_cons {l : TSLexer} {x : Int} {xs : List Int}
    (h : l.rest = x :: xs) : skip l = skips 1 l :=
  skip_eq_skips (pos_lt_of_rest_cons h)

theorem rest_skips_of_append {l : TSLexer} {w xs : List Int} (h : l.rest = w ++ xs) :
    (skips w.length l).rest = xs := by
  rw [skips_rest, h, List.drop_left]

theorem rest_skips_one {l : TSLexer} {x : Int} {xs : List Int} (h : l.rest = x :: xs) :
    (skips 1 l).rest = xs := by
  rw [skips_rest, h]
  rfl

theorem getElem?_pos_of_lookahead {l : TSLexer} {c : Int} (h : l.lookahead = c) (hc : c ≠ 0) :
    l.input[l.pos]? = some c := by
  have hlt := pos_lt_of_lookahead_ne_zero l (h ▸ hc)
  unfold TSLexer.lookahead at h
  rw [List.getD_eq_getElem?_getD, List.getElem?_eq_getElem hlt] at h
  rw [List.getElem?_eq_getElem hlt]
  exact congrArg some h

theorem crossedNewline.of_frame_left {l m r : TSLexer} (hf : Frame l m)
    (h : crossedNewline m r) : crossedNewline l r := by
  obtain ⟨p, h1, h2, h3⟩ := h
  rw [hf.input_eq] at h3
  exact ⟨p, le_trans hf.pos_le h1, h2, h3⟩

theorem crossedNewline.of_frame_right {l m r : TSLexer} (h : crossedNewline l m)
    (hf : Frame m r) : crossedNewline l r := by
  obtain ⟨p, h1, h2, h3⟩ := h
  exact ⟨p, h1, lt_of_lt_of_le h2 hf.pos_le, h3⟩

theorem crossedNewline.of_lookahead {l r : TSLexer} (h : l.lookahead = 10)
    (hf : Frame (skip l) r) : crossedNewline l r := by
  have hlt := pos_lt_of_lookahead_ne_zero l (by rw [h]; decide)
  refine ⟨l.pos, le_refl _, ?_, getElem?_pos_of_lookahead h (by decide)⟩
  have h1 := hf.pos_le
  rw [skip_eq_skips hlt, skips_pos] at h1
  omega

theorem sameline_after_false {l : TSLexer} {s : Bool} (h : sameline_after l s = false) :
    s = false ∨ l.lookahead = 10 := by
  unfold sameline_after at h
  split at h
  · right; assumption
  · left; exact h

/-! ## The line-comment loop -/

theorem line_comment_loop_frame (l : TSLexer) : Frame l (line_comment_loop l) := by
  induction l using line_comment_loop.induct with
  | case1 l h ih =>
    rw [line_comment_loop, dif_pos h]
    exact (Frame.skip (pos_lt_of_lookahead_ne_zero l h.1)).trans ih
  | case2 l h =>
    rw [line_comment_loop, dif_neg h]
    exact Frame.refl l

/-- The loop stops on a zero lookahead or on a newline, without consuming it. -/
theorem line_comment_loop_stop (l : TSLexer) :
    (line_comment_loop l).lookahead = 0 ∨ (line_comment_loop l).lookahead = 10 := by
  induction l using line_comment_loop.induct with
  | case1 l h ih =>
    rw [line_comment_loop, dif_pos h]
    exact ih
  | case2 l h =>
    rw [line_comment_loop, dif_neg h]
    by_cases h0 : l.lookahead = 0
    · exact Or.inl h0
    · by_cases h10 : l.lookahead = 10
      · exact Or.inr h10
      · exact absurd ⟨h0, h10⟩ h

/-- On a run `t` of characters other than NUL and newline, followed by NUL, a
newline or the end of the input, the loop consumes exactly `t`. -/
theorem line_comment_loop_run (t : List Int) :
    ∀ (l : TSLexer) (xs : List Int), l.rest = t ++ xs →
      (∀ c ∈ t, c ≠ 0 ∧ c ≠ 10) → (xs.headD 0 = 0 ∨ xs.headD 0 = 10) →
      line_comment_loop l = skips t.length l := by
  induction t with
  | nil =>
    intro l xs h _ hx
    rw [List.nil_append] at h
    have hl : l.lookahead = xs.headD 0 := by rw [lookahead_eq_headD, h]
    rw [line_comment_loop, dif_neg, List.length_nil, skips_zero]
    rw [hl]
    rcases hx with hx | hx <;> rw [hx] <;> decide
  | cons c t ih =>
    intro l xs h ht hx
    have hc := ht c (List.mem_cons_self c t)
    have hl : l.lookahead = c := lookahead_of_rest_cons h
    rw [line_comment_loop, dif_pos (by rw [hl]; exact hc), skip_of_rest_cons h,
      ih (skips 1 l) xs (rest_skips_one h) (fun d hd => ht d (List.mem_cons_of_mem c hd)) hx,
      skips_skips, List.length_cons, Nat.add_comm]

/-! ## The block-comment loop -/

theorem block_comment_loop_frame (l : TSLexer) (s : Bool) :
    Frame l (block_comment_loop l s).lexer := by
  induction l, s using block_comment_loop.induct with
  | case1 l s h0 =>
    rw [block_comment_loop, dif_pos h0]
    exact Frame.refl l
  | case2 l s h0 h42 h47 =>
    rw [block_comment_loop, dif_neg h0, if_pos h42, if_pos h47]
    exact (Frame.skip (pos_lt_of_lookahead_ne_zero l h0)).trans
      (Frame.skip (pos_lt_of_lookahead_ne_zero _ (by rw [h47]; decide)))
  | case3 l s h0 h42 h47 ih =>
    rw [block_comment_loop, dif_neg h0, if_pos h42, if_neg h47]
    exact (Frame.skip (pos_lt_of_lookahead_ne_zero l h0)).trans ih
  | case4 l s h0 h42 ih =>
    rw [block_comment_loop, dif_neg h0, if_neg h42]
    exact (Frame.skip (pos_lt_of_lookahead_ne_zero l h0)).trans ih

/-- The only `return` inside the block-comment loop is `return false`, taken on
a zero lookahead. -/
theorem block_comment_loop_ret (l : TSLexer) (s : Bool) :
    ∀ (v : Bool) (r : TSLexer), block_comment_loop l s = LoopExit.ret v r →
      v = false ∧ r.lookahead = 0 := by
  induction l, s using block_comment_loop.induct with
  | case1 l s h0 =>
    intro v r h
    rw [block_comment_loop, dif_pos h0] at h
    injection h with hv hr
    exact ⟨hv.symm, hr ▸ h0⟩
  | case2 l s h0 h42 h47 =>
    intro v r h
    rw [block_comment_loop, dif_neg h0, if_pos h42, if_pos h47] at h
    exact LoopExit.noConfusion h
  | case3 l s h0 h42 h47 ih =>
    intro v r h
    rw [block_comment_loop, dif_neg h0, if_pos h42, if_neg h47] at h
    exact ih v r h
  | case4 l s h0 h42 ih =>
    intro v r h
    rw [block_comment_loop, dif_neg h0, if_neg h42] at h
    exact ih v r h

/-- When the block-comment loop leaves with `sameline` false, either it was
entered with `sameline` false or a newline was consumed inside the comment. -/
theorem block_comment_loop_brk (l : TSLexer) (s : Bool) :
    ∀ (r : TSLexer) (s1 : Bool), block_comment_loop l s = LoopExit.brk r s1 →
      s1 = false → s = false ∨ crossedNewline l r := by
  induction l, s using block_comment_loop.induct with
  | case1 l s h0 =>
    intro r s1 h
    rw [block_comment_loop, dif_pos h0] at h
    exact LoopExit.noConfusion h
  | case2 l s h0 h42 h47 =>
    intro r s1 h hs
    rw [block_comment_loop, dif_neg h0, if_pos h42, if_pos h47] at h
    injection h with hr hs1
    rw [← hs1] at hs
    rcases sameline_after_false hs with h1 | h1
    · exact Or.inl h1
    · rw [h42] at h1
      exact absurd h1 (by decide)
  | case3 l s h0 h42 h47 ih =>
    intro r s1 h hs
    rw [block_comment_loop, dif_neg h0, if_pos h42, if_neg h47] at h
    have hf : Frame (skip l) r := by
      have := block_comment_loop_frame (skip l) (sameline_after l s)
      rwa [h] at this
    rcases ih r s1 h hs with h1 | h1
    · rcases sameline_after_false h1 with h2 | h2
      · exact Or.inl h2
      · exact Or.inr (crossedNewline.of_lookahead h2 hf)
    · exact Or.inr (h1.of_frame_left (Frame.skip (pos_lt_of_lookahead_ne_zero l h0)))
  | case4 l s h0 h42 ih =>
    intro r s1 h hs
    rw [block_comment_loop, dif_neg h0, if_neg h42] at h
    have hf : Frame (skip l) r := by
      have := block_comment_loop_frame (skip l) (sameline_after l s)
      rwa [h] at this
    rcases ih r s1 h hs with h1 | h1
    · rcases sameline_after_false h1 with h2 | h2
      · exact Or.inl h2
      · exact Or.inr (crossedNewline.of_lookahead h2 hf)
    · exact Or.inr (h1.of_frame_left (Frame.skip (pos_lt_of_lookahead_ne_zero l h0)))

theorem block_comment_loop_step {l : TSLexer} (s : Bool) (h0 : l.lookahead ≠ 0)
    (h : l.lookahead = 42 → (skip l).lookahead ≠ 47) :
    block_comment_loop l s = block_comment_loop (skip l) (sameline_after l s) := by
  rw [block_comment_loop, dif_neg h0]
  by_cases h42 : l.lookahead = 42
  · rw [if_pos h42, if_neg (h h42)]
  · rw [if_neg h42]

theorem sameline_after_of_rest_cons {l : TSLexer} {c : Int} {xs : List Int} (s : Bool)
    (h : l.rest = c :: xs) : sameline_after l s = if c = 10 then false else s := by
  rw [sameline_after, lookahead_of_rest_cons h]

/-- In a text without the two-character closer, a star is not followed by a slash. -/
theorem head_ne_slash_of_no_closer {c : Int} {t xs : List Int}
    (hno : ¬ [42, 47] <:+: c :: t) (hc : c = 42) (hx : xs.headD 0 ≠ 47) :
    (t ++ xs).headD 0 ≠ 47 := by
  cases t with
  | nil => simpa using hx
  | cons d t =>
    intro hd
    have hd1 : d = 47 := hd
    apply hno
    rw [hc, hd1]
    exact (List.prefix_append [42, 47] t).isInfix

theorem no_closer_tail {c : Int} {t : List Int} (hno : ¬ [42, 47] <:+: c :: t) :
    ¬ [42, 47] <:+: t :=
  fun h => hno (List.infix_cons h)

/-- An unclosed comment: on a text `t` without NUL and without the closer, followed
by a NUL or by the end of the input, the block-comment loop consumes `t` and
returns false. -/
theorem block_comment_loop_unclosed (t : List Int) :
    ∀ (l : TSLexer) (s : Bool) (xs : List Int), l.rest = t ++ xs → (∀ c ∈ t, c ≠ 0) →
      ¬ [42, 47] <:+: t → xs.headD 0 = 0 →
      block_comment_loop l s = LoopExit.ret false (skips t.length l) := by
  induction t with
  | nil =>
    intro l s xs h _ _ hx
    rw [List.nil_append] at h
    have hl : l.lookahead = 0 := by rw [lookahead_eq_headD, h, hx]
    rw [block_comment_loop, dif_pos hl, List.length_nil, skips_zero]
  | cons c t ih =>
    intro l s xs h0 ht hno hx
    have h : l.rest = c :: (t ++ xs) := h0
    have hl : l.lookahead = c := lookahead_of_rest_cons h
    have hnext : (skip l).lookahead = (t ++ xs).headD 0 := by
      rw [skip_of_rest_cons h, lookahead_eq_headD, rest_skips_one h]
    rw [block_comment_loop_step s (by rw [hl]; exact ht c (List.mem_cons_self c t))
        (fun h42 => by
          rw [hnext]
          exact head_ne_slash_of_no_closer hno (hl.symm.trans h42) (by rw [hx]; decide)),
      skip_of_rest_cons h,
      ih (skips 1 l) _ xs (rest_skips_one h) (fun d hd => ht d (List.mem_cons_of_mem c hd))
        (no_closer_tail hno) hx,
      skips_skips, List.length_cons, Nat.add_comm]

/-- A closed comment: on a body without NUL and without the closer, followed by the
closer, the block-comment loop consumes the body and the closer and breaks;
`sameline` is cleared exactly when the body holds a newline. -/
theorem block_comment_loop_closed (body : List Int) :
    ∀ (l : TSLexer) (s : Bool) (xs : List Int), l.rest = body ++ 42 :: 47 :: xs →
      (∀ c ∈ body, c ≠ 0) → ¬ [42, 47] <:+: body →
      block_comment_loop l s
        = LoopExit.brk (skips (body.length + 2) l) (if 10 ∈ body then false else s) := by
  induction body with
  | nil =>
    intro l s xs h _ _
    rw [List.nil_append] at h
    have hl : l.lookahead = 42 := lookahead_of_rest_cons h
    have hr1 : (skips 1 l).rest = 47 :: xs := rest_skips_one h
    have hl1 : (skip l).lookahead = 47 := by
      rw [skip_of_rest_cons h]
      exact lookahead_of_rest_cons hr1
    rw [block_comment_loop, dif_neg (by rw [hl]; decide), if_pos hl, if_pos hl1,
      skip_of_rest_cons h, skip_of_rest_cons hr1, skips_skips,
      sameline_after_of_rest_cons s h]
    simp
  | cons c body ih =>
    intro l s xs h0 hb hno
    have h : l.rest = c :: (body ++ 42 :: 47 :: xs) := h0
    have hl : l.lookahead = c := lookahead_of_rest_cons h
    have hnext : (skip l).lookahead = (body ++ 42 :: 47 :: xs).headD 0 := by
      rw [skip_of_rest_cons h, lookahead_eq_headD, rest_skips_one h]
    rw [block_comment_loop_step s (by rw [hl]; exact hb c (List.mem_cons_self c body))
        (fun h42 => by
          rw [hnext]
          exact head_ne_slash_of_no_closer hno (hl.symm.trans h42) (by simp)),
      skip_of_rest_cons h,
      ih (skips 1 l) _ xs (rest_skips_one h) (fun d hd => hb d (List.mem_cons_of_mem c hd))
        (no_closer_tail hno),
      skips_skips, sameline_after_of_rest_cons s h, List.length_cons]
    have hlen : 1 + (body.length + 2) = body.length + 1 + 2 := by omega
    rw [hlen]
    by_cases hc : c = 10
    · simp [hc]
    · have hne : ¬ (10 : Int) = c := fun h10 => hc h10.symm
      simp [hc, hne, List.mem_cons]

/-! ## The outer loop, one iteration at a time -/

theorem semicolon_loop_eof {l : TSLexer} (s : Bool) (he : l.eof = true) :
    semicolon_loop l s = LoopExit.ret true l := by
  rw [semicolon_loop, dif_pos he]

theorem semicolon_loop_hspace {l : TSLexer} (s : Bool) (he : ¬ l.eof = true)
    (h : l.lookahead = 32 ∨ l.lookahead = 9 ∨ l.lookahead = 13) :
    semicolon_loop l s = semicolon_loop (skip l) s := by
  rw [semicolon_loop, dif_neg he, if_pos h]

theorem semicolon_loop_newline {l : TSLexer} (s : Bool) (he : ¬ l.eof = true)
    (h : l.lookahead = 10) :
    semicolon_loop l s = semicolon_loop (skip l) false := by
  rw [semicolon_loop, dif_neg he, if_neg (by rw [h]; decide), if_pos h]

theorem semicolon_loop_line {l : TSLexer} (s : Bool) (he : ¬ l.eof = true)
    (h : l.lookahead = 47) (h1 : (skip l).lookahead = 47) :
    semicolon_loop l s = semicolon_loop (line_comment_loop (skip l)) s := by
  rw [semicolon_loop, dif_neg he, if_neg (by rw [h]; decide), if_neg (by rw [h]; decide),
    if_pos h, if_pos h1]

theorem semicolon_loop_block_ret {l : TSLexer} (s : Bool) (he : ¬ l.eof = true)
    (h : l.lookahead = 47) (h1 : (skip l).lookahead = 42) {v : Bool} {r : TSLexer}
    (hb : block_comment_loop (skip (skip l)) s = LoopExit.ret v r) :
    semicolon_loop l s = LoopExit.ret false r := by
  rw [semicolon_loop, dif_neg he, if_neg (by rw [h]; decide), if_neg (by rw [h]; decide),
    if_pos h, if_neg (by rw [h1]; decide), if_pos h1]
  split
  · rename_i v1 r1 heq
    rw [hb] at heq
    injection heq with _ hr
    rw [hr]
  · rename_i r1 s1 heq
    rw [hb] at heq
    exact LoopExit.noConfusion heq

theorem semicolon_loop_block_brk {l : TSLexer} (s : Bool) (he : ¬ l.eof = true)
    (h : l.lookahead = 47) (h1 : (skip l).lookahead = 42) {r : TSLexer} {s1 : Bool}
    (hb : block_comment_loop (skip (skip l)) s = LoopExit.brk r s1) :
    semicolon_loop l s = semicolon_loop r s1 := by
  rw [semicolon_loop, dif_neg he, if_neg (by rw [h]; decide), if_neg (by rw [h]; decide),
    if_pos h, if_neg (by rw [h1]; decide), if_pos h1]
  split
  · rename_i v1 r1 heq
    rw [hb] at heq
    exact LoopExit.noConfusion heq
  · rename_i r1 s2 heq
    rw [hb] at heq
    injection heq with hr hs
    rw [hr, hs]

theorem semicolon_loop_bare_slash {l : TSLexer} (s : Bool) (he : ¬ l.eof = true)
    (h : l.lookahead = 47) (h1 : (skip l).lookahead ≠ 47) (h2 : (skip l).lookahead ≠ 42) :
    semicolon_loop l s = LoopExit.ret false (skip l) := by
  rw [semicolon_loop, dif_neg he, if_neg (by rw [h]; decide), if_neg (by rw [h]; decide),
    if_pos h, if_neg h1, if_neg h2]

theorem semicolon_loop_other {l : TSLexer} (s : Bool) (he : ¬ l.eof = true)
    (h1 : ¬ (l.lookahead = 32 ∨ l.lookahead = 9 ∨ l.lookahead = 13))
    (h2 : l.lookahead ≠ 10) (h3 : l.lookahead ≠ 47) :
    semicolon_loop l s = LoopExit.brk l s := by
  rw [semicolon_loop, dif_neg he, if_neg h1, if_neg h2, if_neg h3]

theorem pos_lt_of_not_eof {l : TSLexer} (he : ¬ l.eof = true) : l.pos < l.input.length := by
  simpa [TSLexer.eof] using he

/-! ## The outer loop, whole runs -/

theorem semicolon_loop_frame (l : TSLexer) (s : Bool) :
    Frame l (semicolon_loop l s).lexer := by
  induction l, s using semicolon_loop.induct with
  | case1 l s he =>
    rw [semicolon_loop_eof s he]
    exact Frame.refl l
  | case2 l s he h ih =>
    rw [semicolon_loop_hspace s he h]
    exact (Frame.skip (pos_lt_of_not_eof he)).trans ih
  | case3 l s he _ h ih =>
    rw [semicolon_loop_newline s he h]
    exact (Frame.skip (pos_lt_of_not_eof he)).trans ih
  | case4 l s he _ _ h h1 ih =>
    rw [semicolon_loop_line s he h h1]
    exact ((Frame.skip (pos_lt_of_not_eof he)).trans (line_comment_loop_frame _)).trans ih
  | case5 l s he _ _ h _ h1 v r hb =>
    rw [semicolon_loop_block_ret s he h h1 hb]
    have hf := block_comment_loop_frame (skip (skip l)) s
    rw [hb] at hf
    exact ((Frame.skip (pos_lt_of_not_eof he)).trans
      (Frame.skip (pos_lt_of_lookahead_ne_zero _ (by rw [h1]; decide)))).trans hf
  | case6 l s he _ _ h _ h1 r s1 hb ih =>
    rw [semicolon_loop_block_brk s he h h1 hb]
    have hf := block_comment_loop_frame (skip (skip l)) s
    rw [hb] at hf
    exact (((Frame.skip (pos_lt_of_not_eof he)).trans
      (Frame.skip (pos_lt_of_lookahead_ne_zero _ (by rw [h1]; decide)))).trans hf).trans ih
  | case7 l s he _ _ h h1 h2 =>
    rw [semicolon_loop_bare_slash s he h h1 h2]
    exact Frame.skip (pos_lt_of_not_eof he)
  | case8 l s he h1 h2 h3 =>
    rw [semicolon_loop_other s he h1 h2 h3]
    exact Frame.refl l

/-- The outer loop returns true only at end-of-input. -/
theorem semicolon_loop_ret_true (l : TSLexer) (s : Bool) :
    ∀ (r : TSLexer), semicolon_loop l s = LoopExit.ret true r → r.eof = true := by
  induction l, s using semicolon_loop.induct with
  | case1 l s he =>
    intro r h
    rw [semicolon_loop_eof s he] at h
    injection h with _ hr
    exact hr ▸ he
  | case2 l s he h ih =>
    intro r hr
    rw [semicolon_loop_hspace s he h] at hr
    exact ih r hr
  | case3 l s he _ h ih =>
    intro r hr
    rw [semicolon_loop_newline s he h] at hr
    exact ih r hr
  | case4 l s he _ _ h h1 ih =>
    intro r hr
    rw [semicolon_loop_line s he h h1] at hr
    exact ih r hr
  | case5 l s he _ _ h _ h1 v r0 hb =>
    intro r hr
    rw [semicolon_loop_block_ret s he h h1 hb] at hr
    injection hr with hv _
    exact absurd hv (by decide)
  | case6 l s he _ _ h _ h1 r0 s1 hb ih =>
    intro r hr
    rw [semicolon_loop_block_brk s he h h1 hb] at hr
    exact ih r hr
  | case7 l s he _ _ h h1 h2 =>
    intro r hr
    rw [semicolon_loop_bare_slash s he h h1 h2] at hr
    injection hr with hv _
    exact absurd hv (by decide)
  | case8 l s he h1 h2 h3 =>
    intro r hr
    rw [semicolon_loop_other s he h1 h2 h3] at hr
    exact LoopExit.noConfusion hr

/-- The outer loop breaks only on a character, and with `sameline` false only
if it was entered so or a newline was consumed on the way. -/
theorem semicolon_loop_brk (l : TSLexer) (s : Bool) :
    ∀ (r : TSLexer) (s1 : Bool), semicolon_loop l s = LoopExit.brk r s1 →
      ¬ r.eof = true ∧ (s1 = false → s = false ∨ crossedNewline l r) := by
  induction l, s using semicolon_loop.induct with
  | case1 l s he =>
    intro r s1 h
    rw [semicolon_loop_eof s he] at h
    exact LoopExit.noConfusion h
  | case2 l s he h ih =>
    intro r s1 hr
    rw [semicolon_loop_hspace s he h] at hr
    obtain ⟨h1, h2⟩ := ih r s1 hr
    refine ⟨h1, fun hs => ?_⟩
    rcases h2 hs with h3 | h3
    · exact Or.inl h3
    · exact Or.inr (h3.of_frame_left (Frame.skip (pos_lt_of_not_eof he)))
  | case3 l s he _ h ih =>
    intro r s1 hr
    rw [semicolon_loop_newline s he h] at hr
    refine ⟨(ih r s1 hr).1, fun _ => Or.inr ?_⟩
    have hf := semicolon_loop_frame (skip l) false
    rw [hr] at hf
    exact crossedNewline.of_lookahead h hf
  | case4 l s he _ _ h h1 ih =>
    intro r s1 hr
    rw [semicolon_loop_line s he h h1] at hr
    obtain ⟨h2, h3⟩ := ih r s1 hr
    refine ⟨h2, fun hs => ?_⟩
    rcases h3 hs with h4 | h4
    · exact Or.inl h4
    · exact Or.inr (h4.of_frame_left
        ((Frame.skip (pos_lt_of_not_eof he)).trans (line_comment_loop_frame _)))
  | case5 l s he _ _ h _ h1 v r0 hb =>
    intro r s1 hr
    rw [semicolon_loop_block_ret s he h h1 hb] at hr
    exact LoopExit.noConfusion hr
  | case6 l s he _ _ h _ h1 r0 s0 hb ih =>
    intro r s1 hr
    rw [semicolon_loop_block_brk s he h h1 hb] at hr
    obtain ⟨h2, h3⟩ := ih r s1 hr
    refine ⟨h2, fun hs => ?_⟩
    have hf0 : Frame l (skip (skip l)) :=
      (Frame.skip (pos_lt_of_not_eof he)).trans
        (Frame.skip (pos_lt_of_lookahead_ne_zero _ (by rw [h1]; decide)))
    have hfb := block_comment_loop_frame (skip (skip l)) s
    rw [hb] at hfb
    have hfr := semicolon_loop_frame r0 s0
    rw [hr] at hfr
    rcases h3 hs with h4 | h4
    · rcases block_comment_loop_brk _ _ r0 s0 hb h4 with h5 | h5
      · exact Or.inl h5
      · exact Or.inr ((h5.of_frame_left hf0).of_frame_right hfr)
    · exact Or.inr (h4.of_frame_left (hf0.trans hfb))
  | case7 l s he _ _ h h1 h2 =>
    intro r s1 hr
    rw [semicolon_loop_bare_slash s he h h1 h2] at hr
    exact LoopExit.noConfusion hr
  | case8 l s he h1 h2 h3 =>
    intro r s1 hr
    rw [semicolon_loop_other s he h1 h2 h3] at hr
    injection hr with hr hs
    subst hr hs
    exact ⟨he, fun hs => Or.inl hs⟩

/-- On a run `w` of blanks the outer loop consumes all of `w`, and clears
`sameline` exactly when `w` holds a newline. -/
theorem semicolon_loop_blanks (w : List Int) :
    ∀ (l : TSLexer) (s : Bool) (xs : List Int), l.rest = w ++ xs → (∀ c ∈ w, isBlank c) →
      semicolon_loop l s = semicolon_loop (skips w.length l) (if 10 ∈ w then false else s) := by
  induction w with
  | nil =>
    intro l s xs _ _
    simp [skips_zero]
  | cons c w ih =>
    intro l s xs h hw
    have hl : l.lookahead = c := lookahead_of_rest_cons h
    have he := eof_false_of_rest_cons h
    have hw1 : ∀ d ∈ w, isBlank d := fun d hd => hw d (List.mem_cons_of_mem c hd)
    have hlen : skips w.length (skips 1 l) = skips (c :: w).length l := by
      rw [skips_skips, List.length_cons, Nat.add_comm]
    by_cases hc : c = 10
    · rw [semicolon_loop_newline s he (hl.trans hc), skip_of_rest_cons h,
        ih (skips 1 l) false xs (rest_skips_one h) hw1, hlen]
      simp [hc]
    · have hh : l.lookahead = 32 ∨ l.lookahead = 9 ∨ l.lookahead = 13 := by
        rw [hl]
        rcases hw c (List.mem_cons_self c w) with h1 | h1 | h1 | h1
        · exact Or.inl h1
        · exact Or.inr (Or.inl h1)
        · exact Or.inr (Or.inr h1)
        · exact absurd h1 hc
      rw [semicolon_loop_hspace s he hh, skip_of_rest_cons h,
        ih (skips 1 l) s xs (rest_skips_one h) hw1, hlen]
      have hne : ¬ (10 : Int) = c := fun h10 => hc h10.symm
      simp [List.mem_cons, hne]

/-- A line comment: the outer loop consumes the two slashes and the text up to,
not including, the NUL, newline or end of input that stops the comment loop. -/
theorem semicolon_loop_line_comment {l : TSLexer} (s : Bool) (text xs : List Int)
    (h : l.rest = 47 :: 47 :: (text ++ xs)) (ht : ∀ c ∈ text, c ≠ 0 ∧ c ≠ 10)
    (hx : xs.headD 0 = 0 ∨ xs.headD 0 = 10) :
    semicolon_loop l s = semicolon_loop (skips (text.length + 2) l) s := by
  have hr1 : (skips 1 l).rest = (47 :: text) ++ xs := rest_skips_one h
  have hl1 : (skip l).lookahead = 47 := by
    rw [skip_of_rest_cons h]
    exact lookahead_of_rest_cons hr1
  have ht1 : ∀ c ∈ 47 :: text, c ≠ 0 ∧ c ≠ 10 := by
    intro c hc
    rcases List.mem_cons.mp hc with h47 | hmem
    · rw [h47]
      exact ⟨by decide, by decide⟩
    · exact ht c hmem
  rw [semicolon_loop_line s (eof_false_of_rest_cons h) (lookahead_of_rest_cons h) hl1,
    skip_of_rest_cons h, line_comment_loop_run (47 :: text) (skips 1 l) xs hr1 ht1 hx,
    skips_skips, List.length_cons]
  have hlen : 1 + (text.length + 1) = text.length + 2 := by omega
  rw [hlen]

/-- A closed block comment: the outer loop consumes the opener, the body and the
closer, and clears `sameline` exactly when the body holds a newline. -/
theorem semicolon_loop_block_closed {l : TSLexer} (s : Bool) (body xs : List Int)
    (h : l.rest = 47 :: 42 :: (body ++ 42 :: 47 :: xs)) (hb : ∀ c ∈ body, c ≠ 0)
    (hno : ¬ [42, 47] <:+: body) :
    semicolon_loop l s
      = semicolon_loop (skips (body.length + 4) l) (if 10 ∈ body then false else s) := by
  have hr1 : (skips 1 l).rest = 42 :: (body ++ 42 :: 47 :: xs) := rest_skips_one h
  have hl1 : (skip l).lookahead = 42 := by
    rw [skip_of_rest_cons h]
    exact lookahead_of_rest_cons hr1
  have hsk : skip (skip l) = skips 2 l := by
    rw [skip_of_rest_cons h, skip_of_rest_cons hr1, skips_skips]
  have hr2 : (skips 2 l).rest = body ++ 42 :: 47 :: xs := by
    rw [skips_rest, h]
    rfl
  have hb1 := block_comment_loop_closed body (skips 2 l) s xs hr2 hb hno
  rw [← hsk] at hb1
  rw [semicolon_loop_block_brk s (eof_false_of_rest_cons h) (lookahead_of_rest_cons h) hl1 hb1,
    hsk, skips_skips]
  have hlen : 2 + (body.length + 2) = body.length + 4 := by omega
  rw [hlen]

/-- An unclosed block comment: the outer loop returns false at the NUL or the end
of input that stops the comment loop. -/
theorem semicolon_loop_block_unclosed {l : TSLexer} (s : Bool) (t xs : List Int)
    (h : l.rest = 47 :: 42 :: (t ++ xs)) (ht : ∀ c ∈ t, c ≠ 0)
    (hno : ¬ [42, 47] <:+: t) (hx : xs.headD 0 = 0) :
    semicolon_loop l s = LoopExit.ret false (skips (t.length + 2) l) := by
  have hr1 : (skips 1 l).rest = 42 :: (t ++ xs) := rest_skips_one h
  have hl1 : (skip l).lookahead = 42 := by
    rw [skip_of_rest_cons h]
    exact lookahead_of_rest_cons hr1
  have hsk : skip (skip l) = skips 2 l := by
    rw [skip_of_rest_cons h, skip_of_rest_cons hr1, skips_skips]
  have hr2 : (skips 2 l).rest = t ++ xs := by
    rw [skips_rest, h]
    rfl
  have hb1 := block_comment_loop_unclosed t (skips 2 l) s xs hr2 ht hno hx
  rw [← hsk] at hb1
  rw [semicolon_loop_block_ret s (eof_false_of_rest_cons h) (lookahead_of_rest_cons h) hl1 hb1,
    hsk, skips_skips]
  have hlen : 2 + t.length = t.length + 2 := by omega
  rw [hlen]

/-! ## The scan as a whole -/

theorem armed_rest (l : TSLexer) : (armed l).rest = l.rest := rfl

theorem armed_pos (l : TSLexer) : (armed l).pos = l.pos := rfl

theorem scan_automatic_semicolon_eq (l : TSLexer) :
    scan_automatic_semicolon l =
      match semicolon_loop (armed l) true with
      | LoopExit.ret verdict r => (verdict, r)
      | LoopExit.brk r sameline =>
        if sameline then (false, r)
        else if r.lookahead = 125 ∨ r.lookahead = 41 ∨ r.lookahead = 93 then (true, r)
        else (false, r) := rfl

theorem scan_automatic_semicolon_of_ret {l r : TSLexer} {v : Bool}
    (h : semicolon_loop (armed l) true = LoopExit.ret v r) :
    scan_automatic_semicolon l = (v, r) := by
  rw [scan_automatic_semicolon_eq, h]

theorem scan_automatic_semicolon_of_brk {l r : TSLexer} {s : Bool}
    (h : semicolon_loop (armed l) true = LoopExit.brk r s) :
    scan_automatic_semicolon l = (!s && decide (isCloser r.lookahead), r) := by
  rw [scan_automatic_semicolon_eq, h]
  unfold isCloser
  cases s
  · by_cases hc : r.lookahead = 125 ∨ r.lookahead = 41 ∨ r.lookahead = 93
    · simp only [Bool.false_eq_true, if_false, if_pos hc, Bool.not_false, Bool.true_and]
      rw [decide_eq_true hc]
    · simp only [Bool.false_eq_true, if_false, if_neg hc, Bool.not_false, Bool.true_and]
      rw [decide_eq_false hc]
  · simp only [if_true, Bool.not_true, Bool.false_and]

theorem scan_automatic_semicolon_frame (l : TSLexer) :
    Frame (armed l) (scan_automatic_semicolon l).2 := by
  have hf := semicolon_loop_frame (armed l) true
  cases h : semicolon_loop (armed l) true with
  | ret v r =>
    rw [scan_automatic_semicolon_of_ret h]
    rwa [h] at hf
  | brk r s =>
    rw [scan_automatic_semicolon_of_brk h]
    rwa [h] at hf

theorem scan_of_candidate (payload : Unit) (l : TSLexer) (valid_symbols : TokenType → Bool)
    (h : valid_symbols TokenType.AUTOMATIC_SEMICOLON = true) :
    tree_sitter_zag_external_scanner_scan payload l valid_symbols
      = scan_automatic_semicolon l := by
  rw [tree_sitter_zag_external_scanner_scan, if_pos h]

theorem consumedNewline_of_crossed {l r : TSLexer} (hf : Frame l r)
    (h : crossedNewline l r) : consumedNewline l r := by
  obtain ⟨n, _, rfl⟩ := hf
  obtain ⟨p, h1, h2, h3⟩ := h
  refine ⟨p, h1, h2, h3, ?_⟩
  have hlog : (skips n l).log = l.log ++ (List.range' l.pos n).map (fun q => (q, true)) := rfl
  rw [hlog, List.drop_left, List.mem_map]
  exact ⟨p, List.mem_range'_1.mpr ⟨h1, h2⟩, rfl⟩

theorem not_hspace_of_closer {c : Int} (hc : isCloser c) :
    ¬ (c = 32 ∨ c = 9 ∨ c = 13) ∧ c ≠ 10 ∧ c ≠ 47 ∧ c ≠ 0 := by
  unfold isCloser at hc
  omega

theorem not_mem_newline_of_hspace {w : List Int} (hw : ∀ x ∈ w, isHSpace x) : (10 : Int) ∉ w := by
  intro h
  have := hw 10 h
  unfold isHSpace at this
  omega

theorem isBlank_of_isHSpace {c : Int} (h : isHSpace c) : isBlank c := by
  unfold isHSpace at h
  unfold isBlank
  omega

/-- Blanks holding a newline, then a closing bracket: the terminator scan answers
recognized and stops on the bracket. -/
theorem scan_automatic_semicolon_blanks_closer (l : TSLexer) (w : List Int) (c : Int)
    (rest : List Int) (hin : l.rest = w ++ c :: rest) (hw : ∀ x ∈ w, isBlank x)
    (hnl : (10 : Int) ∈ w) (hc : isCloser c) :
    scan_automatic_semicolon l = (true, skips w.length (armed l)) := by
  have hr : (skips w.length (armed l)).rest = c :: rest := rest_skips_of_append hin
  have hl := lookahead_of_rest_cons hr
  obtain ⟨h1, h2, h3, _⟩ := not_hspace_of_closer hc
  have hloop : semicolon_loop (armed l) true
      = LoopExit.brk (skips w.length (armed l)) false := by
    rw [semicolon_loop_blanks w (armed l) true (c :: rest) hin hw, if_pos hnl]
    exact semicolon_loop_other false (eof_false_of_rest_cons hr) (by rw [hl]; exact h1)
      (by rw [hl]; exact h2) (by rw [hl]; exact h3)
  rw [scan_automatic_semicolon_of_brk hloop, hl, decide_eq_true hc]
  rfl

/-- On the two-character input newline, closing bracket, read from offset 0, the
scan answers recognized. -/
theorem recognized_newline_then_closer (c : Int) (hc : isCloser c) (sym : Nat) :
    (tree_sitter_zag_external_scanner_scan () ⟨[10, c], 0, sym, none, []⟩
      (fun _ => true)).1 = true := by
  rw [scan_of_candidate _ _ _ rfl,
    scan_automatic_semicolon_blanks_closer ⟨[10, c], 0, sym, none, []⟩ [10] c [] rfl
      (by decide) (by decide) hc]

/-! ## The claims -/

/-- C1: when the automatic-terminator kind is not a candidate, whatever the other two
entries of the candidate set are, the scan answers not-recognized and returns
the lexer it was given: cursor, end mark, result kind and log are all unchanged. -/
theorem scan_not_candidate_unchanged (payload : Unit) (l : TSLexer)
    (valid_symbols : TokenType → Bool)
    (h : valid_symbols TokenType.AUTOMATIC_SEMICOLON = false) :
    tree_sitter_zag_external_scanner_scan payload l valid_symbols = (false, l) := by
  rw [tree_sitter_zag_external_scanner_scan, if_neg (by rw [h]; decide)]

/-- C2: a positive verdict is sound. If the scan answers recognized, the final cursor
is at end-of-input, or a newline was consumed during the scan and the character
under the final cursor is one of the three closing brackets. -/
theorem scan_recognized_sound (payload : Unit) (l : TSLexer)
    (valid_symbols : TokenType → Bool)
    (h : (tree_sitter_zag_external_scanner_scan payload l valid_symbols).1 = true) :
    (tree_sitter_zag_external_scanner_scan payload l valid_symbols).2.eof = true ∨
      (consumedNewline l (tree_sitter_zag_external_scanner_scan payload l valid_symbols).2 ∧
        ∃ c, (tree_sitter_zag_external_scanner_scan payload l valid_symbols).2.input[
            (tree_sitter_zag_external_scanner_scan payload l valid_symbols).2.pos]? = some c ∧
          isCloser c) := by
  by_cases hv : valid_symbols TokenType.AUTOMATIC_SEMICOLON = true
  · rw [scan_of_candidate payload l valid_symbols hv] at h ⊢
    have hf := semicolon_loop_frame (armed l) true
    cases hl : semicolon_loop (armed l) true with
    | ret v r =>
      rw [scan_automatic_semicolon_of_ret hl] at h ⊢
      left
      have hv1 : v = true := h
      rw [hv1] at hl
      exact semicolon_loop_ret_true _ _ r hl
    | brk r s =>
      rw [scan_automatic_semicolon_of_brk hl] at h ⊢
      right
      rw [hl] at hf
      have h1 : (!s && decide (isCloser r.lookahead)) = true := h
      rw [Bool.and_eq_true, Bool.not_eq_true', decide_eq_true_iff] at h1
      obtain ⟨hs, hc⟩ := h1
      refine ⟨?_, r.lookahead, getElem?_pos_of_lookahead rfl (not_hspace_of_closer hc).2.2.2, hc⟩
      rcases (semicolon_loop_brk _ _ r s hl).2 hs with h2 | h2
      · exact absurd h2 (by decide)
      · have h3 : consumedNewline (armed l) r := consumedNewline_of_crossed hf h2
        exact h3
  · rw [tree_sitter_zag_external_scanner_scan, if_neg hv] at h
    exact Bool.noConfusion h

/-- C3: whenever the scan answers recognized, the result kind written to the lexer is
the automatic-terminator kind, and that kind is in the candidate set. -/
theorem scan_recognized_kind (payload : Unit) (l : TSLexer)
    (valid_symbols : TokenType → Bool)
    (h : (tree_sitter_zag_external_scanner_scan payload l valid_symbols).1 = true) :
    (tree_sitter_zag_external_scanner_scan payload l valid_symbols).2.result_symbol
        = TokenType.AUTOMATIC_SEMICOLON.toNat ∧
      valid_symbols TokenType.AUTOMATIC_SEMICOLON = true := by
  by_cases hv : valid_symbols TokenType.AUTOMATIC_SEMICOLON = true
  · rw [scan_of_candidate payload l valid_symbols hv]
    exact ⟨(scan_automatic_semicolon_frame l).symbol_eq, hv⟩
  · rw [tree_sitter_zag_external_scanner_scan, if_neg hv] at h
    exact Bool.noConfusion h

/-- C4: whenever the scan answers recognized, the marked token end is the cursor
offset at which the scan was called, however much trivia was consumed after. -/
theorem scan_recognized_zero_width (payload : Unit) (l : TSLexer)
    (valid_symbols : TokenType → Bool)
    (h : (tree_sitter_zag_external_scanner_scan payload l valid_symbols).1 = true) :
    (tree_sitter_zag_external_scanner_scan payload l valid_symbols).2.token_end
      = some l.pos := by
  by_cases hv : valid_symbols TokenType.AUTOMATIC_SEMICOLON = true
  · rw [scan_of_candidate payload l valid_symbols hv]
    exact (scan_automatic_semicolon_frame l).token_end_eq
  · rw [tree_sitter_zag_external_scanner_scan, if_neg hv] at h
    exact Bool.noConfusion h

/-- C5: from a cursor followed by a run of blanks that holds a newline and then a
closing bracket, the scan with the terminator as a candidate answers recognized;
it leaves the cursor on the bracket, having discarded exactly the blanks. -/
theorem scan_blanks_newline_closer (payload : Unit) (l : TSLexer)
    (valid_symbols : TokenType → Bool) (w : List Int) (c : Int) (rest : List Int)
    (hv : valid_symbols TokenType.AUTOMATIC_SEMICOLON = true)
    (hin : l.rest = w ++ c :: rest) (hw : ∀ x ∈ w, isBlank x) (hnl : (10 : Int) ∈ w)
    (hc : isCloser c) :
    (tree_sitter_zag_external_scanner_scan payload l valid_symbols).1 = true ∧
      (tree_sitter_zag_external_scanner_scan payload l valid_symbols).2
        = skips w.length (armed l) := by
  rw [scan_of_candidate payload l valid_symbols hv,
    scan_automatic_semicolon_blanks_closer l w c rest hin hw hnl hc]
  exact ⟨rfl, rfl⟩

/-- C6: from a cursor followed by a run of spaces, tabs and carriage returns (no
newline) and then a character that is neither blank nor a slash, the scan with
the terminator as a candidate answers not-recognized, closing bracket or not. -/
theorem scan_hspace_no_newline (payload : Unit) (l : TSLexer)
    (valid_symbols : TokenType → Bool) (w : List Int) (c : Int) (rest : List Int)
    (hv : valid_symbols TokenType.AUTOMATIC_SEMICOLON = true)
    (hin : l.rest = w ++ c :: rest) (hw : ∀ x ∈ w, isHSpace x)
    (hc : ¬ isBlank c) (hslash : c ≠ 47) :
    (tree_sitter_zag_external_scanner_scan payload l valid_symbols).1 = false ∧
      (tree_sitter_zag_external_scanner_scan payload l valid_symbols).2
        = skips w.length (armed l) := by
  have hr : (skips w.length (armed l)).rest = c :: rest := rest_skips_of_append hin
  have hl := lookahead_of_rest_cons hr
  have hc1 : ¬ (c = 32 ∨ c = 9 ∨ c = 13) ∧ c ≠ 10 := by
    unfold isBlank at hc
    omega
  have hloop : semicolon_loop (armed l) true
      = LoopExit.brk (skips w.length (armed l)) true := by
    rw [semicolon_loop_blanks w (armed l) true (c :: rest) hin
      (fun x hx => isBlank_of_isHSpace (hw x hx)), if_neg (not_mem_newline_of_hspace hw)]
    exact semicolon_loop_other true (eof_false_of_rest_cons hr) (by rw [hl]; exact hc1.1)
      (by rw [hl]; exact hc1.2) (by rw [hl]; exact hslash)
  rw [scan_of_candidate payload l valid_symbols hv, scan_automatic_semicolon_of_brk hloop]
  exact ⟨rfl, rfl⟩

/-- C9: when nothing but blanks (possibly none, possibly without any newline) lies
between the cursor and the end of the input, the scan with the terminator as a
candidate answers recognized and leaves the cursor at end-of-input. -/
theorem scan_blanks_to_eof (payload : Unit) (l : TSLexer)
    (valid_symbols : TokenType → Bool)
    (hv : valid_symbols TokenType.AUTOMATIC_SEMICOLON = true)
    (hw : ∀ x ∈ l.rest, isBlank x) :
    (tree_sitter_zag_external_scanner_scan payload l valid_symbols).1 = true ∧
      (tree_sitter_zag_external_scanner_scan payload l valid_symbols).2.eof = true ∧
      (tree_sitter_zag_external_scanner_scan payload l valid_symbols).2
        = skips l.rest.length (armed l) := by
  have hin : (armed l).rest = l.rest ++ [] := (List.append_nil _).symm
  have hr : (skips l.rest.length (armed l)).rest = [] := rest_skips_of_append hin
  have he := (eof_iff_rest _).mpr hr
  have hloop : semicolon_loop (armed l) true
      = LoopExit.ret true (skips l.rest.length (armed l)) := by
    rw [semicolon_loop_blanks l.rest (armed l) true [] hin hw]
    exact semicolon_loop_eof _ he
  rw [scan_of_candidate payload l valid_symbols hv, scan_automatic_semicolon_of_ret hloop]
  exact ⟨rfl, he, rfl⟩

/-- C10: from a cursor followed by a run of blanks and then a slash that is followed
by neither a slash nor a star (or by nothing), the scan with the terminator as a
candidate answers not-recognized, and the final cursor is exactly one past the
slash: the slash was consumed in discard mode, the character after it was not. -/
theorem scan_bare_slash (payload : Unit) (l : TSLexer)
    (valid_symbols : TokenType → Bool) (w : List Int) (rest : List Int)
    (hv : valid_symbols TokenType.AUTOMATIC_SEMICOLON = true)
    (hin : l.rest = w ++ 47 :: rest) (hw : ∀ x ∈ w, isBlank x)
    (h1 : rest.head? ≠ some 47) (h2 : rest.head? ≠ some 42) :
    (tree_sitter_zag_external_scanner_scan payload l valid_symbols).1 = false ∧
      (tree_sitter_zag_external_scanner_scan payload l valid_symbols).2.pos
        = l.pos + w.length + 1 ∧
      (tree_sitter_zag_external_scanner_scan payload l valid_symbols).2
        = skips (w.length + 1) (armed l) := by
  have hr : (skips w.length (armed l)).rest = 47 :: rest := rest_skips_of_append hin
  have hl := lookahead_of_rest_cons hr
  have hsk : skip (skips w.length (armed l)) = skips (w.length + 1) (armed l) := by
    rw [skip_of_rest_cons hr, skips_skips]
  have hnext : (skips (w.length + 1) (armed l)).lookahead = rest.headD 0 := by
    rw [← hsk, skip_of_rest_cons hr, lookahead_eq_headD, rest_skips_one hr]
  have hne : rest.headD 0 ≠ 47 ∧ rest.headD 0 ≠ 42 := by
    cases rest with
    | nil => exact ⟨by decide, by decide⟩
    | cons d t =>
      refine ⟨fun h => h1 ?_, fun h => h2 ?_⟩
      · exact congrArg some h
      · exact congrArg some h
  have hloop : semicolon_loop (armed l) true
      = LoopExit.ret false (skips (w.length + 1) (armed l)) := by
    rw [semicolon_loop_blanks w (armed l) true (47 :: rest) hin hw, ← hsk]
    exact semicolon_loop_bare_slash _ (eof_false_of_rest_cons hr) hl
      (by rw [hsk, hnext]; exact hne.1) (by rw [hsk, hnext]; exact hne.2)
  rw [scan_of_candidate payload l valid_symbols hv, scan_automatic_semicolon_of_ret hloop]
  exact ⟨rfl, (Nat.add_assoc _ _ _).symm, rfl⟩

/-- A closed block comment whose body holds a newline and no NUL, then a closing
bracket: the scan answers recognized with the cursor on the bracket. -/
theorem scan_block_comment_newline_closer (payload : Unit) (l : TSLexer)
    (valid_symbols : TokenType → Bool) (body : List Int) (c : Int) (rest : List Int)
    (hv : valid_symbols TokenType.AUTOMATIC_SEMICOLON = true)
    (hin : l.rest = 47 :: 42 :: (body ++ 42 :: 47 :: c :: rest))
    (hnl : (10 : Int) ∈ body) (hno : ¬ [42, 47] <:+: body) (hnul : ∀ x ∈ body, x ≠ 0)
    (hc : isCloser c) :
    (tree_sitter_zag_external_scanner_scan payload l valid_symbols).1 = true ∧
      (tree_sitter_zag_external_scanner_scan payload l valid_symbols).2
        = skips (body.length + 4) (armed l) := by
  have hr : (skips (body.length + 4) (armed l)).rest = c :: rest := by
    have h4 : (47 :: 42 :: (body ++ [42, 47])).length = body.length + 4 := by simp
    have h5 : (armed l).rest = (47 :: 42 :: (body ++ [42, 47])) ++ c :: rest := by
      rw [armed_rest, hin]
      simp
    have h6 := rest_skips_of_append h5
    rwa [h4] at h6
  have hl := lookahead_of_rest_cons hr
  obtain ⟨h1, h2, h3, _⟩ := not_hspace_of_closer hc
  have hloop : semicolon_loop (armed l) true
      = LoopExit.brk (skips (body.length + 4) (armed l)) false := by
    rw [semicolon_loop_block_closed (l := armed l) true body (c :: rest) hin hnul hno,
      if_pos hnl]
    exact semicolon_loop_other false (eof_false_of_rest_cons hr) (by rw [hl]; exact h1)
      (by rw [hl]; exact h2) (by rw [hl]; exact h3)
  rw [scan_of_candidate payload l valid_symbols hv, scan_automatic_semicolon_of_brk hloop, hl,
    decide_eq_true hc]
  exact ⟨rfl, rfl⟩

/-- Two slashes and a text without newline and without NUL that runs to the end of
the input: the scan answers recognized with the cursor at end-of-input. -/
theorem scan_line_comment_to_eof (payload : Unit) (l : TSLexer)
    (valid_symbols : TokenType → Bool) (text : List Int)
    (hv : valid_symbols TokenType.AUTOMATIC_SEMICOLON = true)
    (hin : l.rest = 47 :: 47 :: text) (hnl : (10 : Int) ∉ text) (hnul : (0 : Int) ∉ text) :
    (tree_sitter_zag_external_scanner_scan payload l valid_symbols).1 = true ∧
      (tree_sitter_zag_external_scanner_scan payload l valid_symbols).2.eof = true ∧
      (tree_sitter_zag_external_scanner_scan payload l valid_symbols).2
        = skips (text.length + 2) (armed l) := by
  have hin1 : (armed l).rest = 47 :: 47 :: (text ++ []) := by
    rw [List.append_nil]
    exact hin
  have ht : ∀ c ∈ text, c ≠ 0 ∧ c ≠ 10 :=
    fun c hc => ⟨fun h0 => hnul (h0 ▸ hc), fun h10 => hnl (h10 ▸ hc)⟩
  have hr : (skips (text.length + 2) (armed l)).rest = [] := by
    have h5 : (armed l).rest = (47 :: 47 :: text) ++ [] := by
      rw [List.append_nil]
      exact hin
    exact rest_skips_of_append h5
  have he := (eof_iff_rest _).mpr hr
  have hloop : semicolon_loop (armed l) true
      = LoopExit.ret true (skips (text.length + 2) (armed l)) := by
    rw [semicolon_loop_line_comment true text [] hin1 ht (Or.inl rfl)]
    exact semicolon_loop_eof _ he
  rw [scan_of_candidate payload l valid_symbols hv, scan_automatic_semicolon_of_ret hloop]
  exact ⟨rfl, he, rfl⟩

/-- C7: the block comment of "/*\n\0*/)" spans a newline and is closed before the
bracket, yet the scan answers not-recognized: the loop takes the NUL in the body
for the end of the input and returns false with the cursor on it. -/
theorem scan_block_comment_nul :
    tree_sitter_zag_external_scanner_scan () ⟨[47, 42, 10, 0, 42, 47, 41], 0, 0, none, []⟩
        (fun _ => true)
      = (false, ⟨[47, 42, 10, 0, 42, 47, 41], 3, 0, some 0,
          [(0, true), (1, true), (2, true)]⟩) := by
  have hloop := semicolon_loop_block_unclosed
    (l := armed ⟨[47, 42, 10, 0, 42, 47, 41], 0, 0, none, []⟩) true [10] [0, 42, 47, 41] rfl
    (by decide) (by decide) rfl
  rw [scan_of_candidate _ _ _ rfl, scan_automatic_semicolon_of_ret hloop]
  rfl

/-- C8: the line comment of "//\0x" runs to the end of the input without a newline,
yet the scan answers not-recognized: the comment loop stops on the NUL, which is
not the end of the input, and the outer loop breaks there with `sameline` set. -/
theorem scan_line_comment_nul :
    tree_sitter_zag_external_scanner_scan () ⟨[47, 47, 0, 120], 0, 0, none, []⟩
        (fun _ => true)
      = (false, ⟨[47, 47, 0, 120], 2, 0, some 0, [(0, true), (1, true)]⟩) := by
  have hloop : semicolon_loop (armed ⟨[47, 47, 0, 120], 0, 0, none, []⟩) true
      = LoopExit.brk (skips 2 (armed ⟨[47, 47, 0, 120], 0, 0, none, []⟩)) true := by
    rw [semicolon_loop_line_comment (l := armed ⟨[47, 47, 0, 120], 0, 0, none, []⟩)
      true [] [0, 120] rfl (by simp) (Or.inl rfl)]
    exact semicolon_loop_other true (by decide) (by decide) (by decide) (by decide)
  rw [scan_of_candidate _ _ _ rfl, scan_automatic_semicolon_of_brk hloop]
  rfl

/-- Witness of C1 on "\n}" with the two other kinds as candidates. -/
theorem scan_not_candidate_unchanged_witness :
    (fun k => decide (k ≠ TokenType.AUTOMATIC_SEMICOLON)) TokenType.AUTOMATIC_SEMICOLON = false ∧
      tree_sitter_zag_external_scanner_scan () ⟨[10, 125], 0, 7, none, []⟩
          (fun k => decide (k ≠ TokenType.AUTOMATIC_SEMICOLON))
        = (false, ⟨[10, 125], 0, 7, none, []⟩) :=
  ⟨by decide, scan_not_candidate_unchanged () ⟨[10, 125], 0, 7, none, []⟩
    (fun k => decide (k ≠ TokenType.AUTOMATIC_SEMICOLON)) (by decide)⟩

/-- Witness of C5 on "\n}". -/
theorem scan_blanks_newline_closer_witness :
    (tree_sitter_zag_external_scanner_scan () ⟨[10, 125], 0, 7, none, []⟩ (fun _ => true)).1
        = true ∧
      (tree_sitter_zag_external_scanner_scan () ⟨[10, 125], 0, 7, none, []⟩ (fun _ => true)).2
        = skips 1 (armed ⟨[10, 125], 0, 7, none, []⟩) :=
  scan_blanks_newline_closer () ⟨[10, 125], 0, 7, none, []⟩ (fun _ => true) [10] 125 [] rfl rfl
    (by decide) (by decide) (by decide)

/-- Witness of C2 on "\n}", where the scan answers recognized. -/
theorem scan_recognized_sound_witness :
    (tree_sitter_zag_external_scanner_scan () ⟨[10, 125], 0, 7, none, []⟩
        (fun _ => true)).1 = true ∧
    ((tree_sitter_zag_external_scanner_scan () ⟨[10, 125], 0, 7, none, []⟩
        (fun _ => true)).2.eof = true ∨
      (consumedNewline ⟨[10, 125], 0, 7, none, []⟩
          (tree_sitter_zag_external_scanner_scan () ⟨[10, 125], 0, 7, none, []⟩
            (fun _ => true)).2 ∧
        ∃ c, (tree_sitter_zag_external_scanner_scan () ⟨[10, 125], 0, 7, none, []⟩
              (fun _ => true)).2.input[
            (tree_sitter_zag_external_scanner_scan () ⟨[10, 125], 0, 7, none, []⟩
              (fun _ => true)).2.pos]? = some c ∧ isCloser c)) :=
  ⟨recognized_newline_then_closer 125 (by decide) 7,
    scan_recognized_sound () ⟨[10, 125], 0, 7, none, []⟩ (fun _ => true)
      (recognized_newline_then_closer 125 (by decide) 7)⟩

/-- Witness of C3 on "\n)". -/
theorem scan_recognized_kind_witness :
    (tree_sitter_zag_external_scanner_scan () ⟨[10, 41], 0, 7, none, []⟩
        (fun _ => true)).1 = true ∧
    (tree_sitter_zag_external_scanner_scan () ⟨[10, 41], 0, 7, none, []⟩
        (fun _ => true)).2.result_symbol = TokenType.AUTOMATIC_SEMICOLON.toNat ∧
      (fun _ => true) TokenType.AUTOMATIC_SEMICOLON = true :=
  ⟨recognized_newline_then_closer 41 (by decide) 7,
    scan_recognized_kind () ⟨[10, 41], 0, 7, none, []⟩ (fun _ => true)
      (recognized_newline_then_closer 41 (by decide) 7)⟩

/-- Witness of C4 on "\n}" entered at offset 0: the end mark is offset 0, before the
newline. -/
theorem scan_recognized_zero_width_witness :
    (tree_sitter_zag_external_scanner_scan () ⟨[10, 125], 0, 7, none, []⟩
        (fun _ => true)).1 = true ∧
    (tree_sitter_zag_external_scanner_scan () ⟨[10, 125], 0, 7, none, []⟩
        (fun _ => true)).2.token_end = some 0 :=
  ⟨recognized_newline_then_closer 125 (by decide) 7,
    scan_recognized_zero_width () ⟨[10, 125], 0, 7, none, []⟩ (fun _ => true)
      (recognized_newline_then_closer 125 (by decide) 7)⟩

/-- Witness of C6 on " }". -/
theorem scan_hspace_no_newline_witness :
    (tree_sitter_zag_external_scanner_scan () ⟨[32, 125], 0, 7, none, []⟩ (fun _ => true)).1
        = false ∧
      (tree_sitter_zag_external_scanner_scan () ⟨[32, 125], 0, 7, none, []⟩ (fun _ => true)).2
        = skips 1 (armed ⟨[32, 125], 0, 7, none, []⟩) :=
  scan_hspace_no_newline () ⟨[32, 125], 0, 7, none, []⟩ (fun _ => true) [32] 125 [] rfl rfl
    (by decide) (by decide) (by decide)

/-- Witness of C9 on " \t" (no newline at all). -/
theorem scan_blanks_to_eof_witness :
    (tree_sitter_zag_external_scanner_scan () ⟨[32, 9], 0, 7, none, []⟩ (fun _ => true)).1
        = true ∧
      (tree_sitter_zag_external_scanner_scan () ⟨[32, 9], 0, 7, none, []⟩ (fun _ => true)).2.eof
        = true ∧
      (tree_sitter_zag_external_scanner_scan () ⟨[32, 9], 0, 7, none, []⟩ (fun _ => true)).2
        = skips 2 (armed ⟨[32, 9], 0, 7, none, []⟩) :=
  scan_blanks_to_eof () ⟨[32, 9], 0, 7, none, []⟩ (fun _ => true) rfl (by decide)

/-- Witness of C10 on "/x". -/
theorem scan_bare_slash_witness :
    (tree_sitter_zag_external_scanner_scan () ⟨[47, 120], 0, 7, none, []⟩ (fun _ => true)).1
        = false ∧
      (tree_sitter_zag_external_scanner_scan () ⟨[47, 120], 0, 7, none, []⟩ (fun _ => true)).2.pos
        = 0 + 0 + 1 ∧
      (tree_sitter_zag_external_scanner_scan () ⟨[47, 120], 0, 7, none, []⟩ (fun _ => true)).2
        = skips 1 (armed ⟨[47, 120], 0, 7, none, []⟩) :=
  scan_bare_slash () ⟨[47, 120], 0, 7, none, []⟩ (fun _ => true) [] [120] rfl rfl
    (by decide) (by decide) (by decide)

/-! ## Comments: unclosed, on one line, ended by a newline -/

/-- Every text splits at its first NUL: a part without NUL, then nothing or a part
that starts with NUL. -/
theorem split_at_nul (body : List Int) :
    ∃ t xs, body = t ++ xs ∧ (∀ x ∈ t, x ≠ 0) ∧ xs.headD 0 = 0 := by
  by_cases h0 : (0 : Int) ∈ body
  · obtain ⟨t, post, hb, hnot⟩ := List.eq_append_cons_of_mem h0
    exact ⟨t, 0 :: post, hb, fun x hx h => hnot (h ▸ hx), rfl⟩
  · exact ⟨body, [], (List.append_nil body).symm, fun x hx h => h0 (h ▸ hx), rfl⟩

theorem no_closer_of_append {t xs : List Int} (hno : ¬ [42, 47] <:+: t ++ xs) :
    ¬ [42, 47] <:+: t :=
  fun h => hno (h.trans (List.prefix_append t xs).isInfix)

/-- C11: from a cursor followed by a run of blanks and then a block comment that is
never closed, the scan with the terminator as a candidate answers not-recognized,
although the end of the input is reached. -/
theorem scan_unterminated_block_comment (payload : Unit) (l : TSLexer)
    (valid_symbols : TokenType → Bool) (w body : List Int)
    (hv : valid_symbols TokenType.AUTOMATIC_SEMICOLON = true)
    (hin : l.rest = w ++ 47 :: 42 :: body) (hw : ∀ x ∈ w, isBlank x)
    (hno : ¬ [42, 47] <:+: body) :
    (tree_sitter_zag_external_scanner_scan payload l valid_symbols).1 = false := by
  obtain ⟨t, xs, hb, ht, hx⟩ := split_at_nul body
  have hr : (skips w.length (armed l)).rest = 47 :: 42 :: (t ++ xs) := by
    rw [← hb]
    exact rest_skips_of_append hin
  have hloop : semicolon_loop (armed l) true
      = LoopExit.ret false (skips (t.length + 2) (skips w.length (armed l))) := by
    rw [semicolon_loop_blanks w (armed l) true (47 :: 42 :: body) hin hw]
    exact semicolon_loop_block_unclosed _ t xs hr ht (no_closer_of_append (hb ▸ hno)) hx
  rw [scan_of_candidate payload l valid_symbols hv, scan_automatic_semicolon_of_ret hloop]

/-- Witness of C11 on "\n/* a": a newline, then a block comment that runs to the end
of the input. -/
theorem scan_unterminated_block_comment_witness :
    (tree_sitter_zag_external_scanner_scan () ⟨[10, 47, 42, 32, 97], 0, 7, none, []⟩
      (fun _ => true)).1 = false :=
  scan_unterminated_block_comment () ⟨[10, 47, 42, 32, 97], 0, 7, none, []⟩ (fun _ => true)
    [10] [32, 97] rfl rfl (by decide) (by decide)

/-- C16: from a cursor followed by a closed block comment without newline, then spaces,
tabs and carriage returns, then a character that is neither blank nor a slash,
the scan with the terminator as a candidate answers not-recognized, closing
bracket or not. -/
theorem scan_block_comment_same_line (payload : Unit) (l : TSLexer)
    (valid_symbols : TokenType → Bool) (body h : List Int) (c : Int) (rest : List Int)
    (hv : valid_symbols TokenType.AUTOMATIC_SEMICOLON = true)
    (hin : l.rest = 47 :: 42 :: (body ++ 42 :: 47 :: (h ++ c :: rest)))
    (hnl : (10 : Int) ∉ body) (hno : ¬ [42, 47] <:+: body) (hh : ∀ x ∈ h, isHSpace x)
    (hc : ¬ isBlank c) (hslash : c ≠ 47) :
    (tree_sitter_zag_external_scanner_scan payload l valid_symbols).1 = false := by
  rw [scan_of_candidate payload l valid_symbols hv]
  by_cases h0 : (0 : Int) ∈ body
  · obtain ⟨t, post, hb, hnot⟩ := List.eq_append_cons_of_mem h0
    have hr : (armed l).rest = 47 :: 42 :: (t ++ (0 :: post ++ 42 :: 47 :: (h ++ c :: rest))) := by
      rw [armed_rest, hin, hb]
      simp
    have hloop := semicolon_loop_block_unclosed true t _ hr (fun x hx hx0 => hnot (hx0 ▸ hx))
      (no_closer_of_append (hb ▸ hno)) rfl
    rw [scan_automatic_semicolon_of_ret hloop]
  · have hnul : ∀ x ∈ body, x ≠ 0 := fun x hx hx0 => h0 (hx0 ▸ hx)
    have hr : (skips (body.length + 4) (armed l)).rest = h ++ c :: rest := by
      have h4 : (47 :: 42 :: (body ++ [42, 47])).length = body.length + 4 := by simp
      have h5 : (armed l).rest = (47 :: 42 :: (body ++ [42, 47])) ++ (h ++ c :: rest) := by
        rw [armed_rest, hin]
        simp
      have h6 := rest_skips_of_append h5
      rwa [h4] at h6
    have hr1 : (skips h.length (skips (body.length + 4) (armed l))).rest = c :: rest :=
      rest_skips_of_append hr
    have hl := lookahead_of_rest_cons hr1
    have hc1 : ¬ (c = 32 ∨ c = 9 ∨ c = 13) ∧ c ≠ 10 := by
      unfold isBlank at hc
      omega
    have hloop : semicolon_loop (armed l) true
        = LoopExit.brk (skips h.length (skips (body.length + 4) (armed l))) true := by
      rw [semicolon_loop_block_closed (l := armed l) true body (h ++ c :: rest) hin hnul hno,
        if_neg hnl,
        semicolon_loop_blanks h _ true (c :: rest) hr (fun x hx => isBlank_of_isHSpace (hh x hx)),
        if_neg (not_mem_newline_of_hspace hh)]
      exact semicolon_loop_other true (eof_false_of_rest_cons hr1) (by rw [hl]; exact hc1.1)
        (by rw [hl]; exact hc1.2) (by rw [hl]; exact hslash)
    rw [scan_automatic_semicolon_of_brk hloop]
    rfl

/-- Witness of C16 on "/* a */ }". -/
theorem scan_block_comment_same_line_witness :
    (tree_sitter_zag_external_scanner_scan ()
      ⟨[47, 42, 32, 97, 32, 42, 47, 32, 125], 0, 7, none, []⟩ (fun _ => true)).1 = false :=
  scan_block_comment_same_line () ⟨[47, 42, 32, 97, 32, 42, 47, 32, 125], 0, 7, none, []⟩
    (fun _ => true) [32, 97, 32] [32] 125 [] rfl rfl (by decide) (by decide) (by decide)
    (by decide) (by decide)

/-- Two slashes, a text without newline and without NUL, a newline, then a closing
bracket: the comment loop stops on the newline without consuming it, the outer
loop consumes it, and the scan answers recognized with the cursor on the bracket. -/
theorem scan_line_comment_newline_closer (payload : Unit) (l : TSLexer)
    (valid_symbols : TokenType → Bool) (text : List Int) (c : Int) (rest : List Int)
    (hv : valid_symbols TokenType.AUTOMATIC_SEMICOLON = true)
    (hin : l.rest = 47 :: 47 :: (text ++ 10 :: c :: rest))
    (hnl : (10 : Int) ∉ text) (hnul : (0 : Int) ∉ text) (hc : isCloser c) :
    (tree_sitter_zag_external_scanner_scan payload l valid_symbols).1 = true ∧
      (tree_sitter_zag_external_scanner_scan payload l valid_symbols).2
        = skips (text.length + 3) (armed l) ∧
      line_comment_loop (skip (armed l)) = skips (text.length + 2) (armed l) ∧
      (skips (text.length + 2) (armed l)).lookahead = 10 := by
  have ht : ∀ x ∈ text, x ≠ 0 ∧ x ≠ 10 :=
    fun x hx => ⟨fun h0 => hnul (h0 ▸ hx), fun h10 => hnl (h10 ▸ hx)⟩
  have hin1 : (armed l).rest = 47 :: 47 :: (text ++ 10 :: c :: rest) := hin
  have hr : (skips (text.length + 2) (armed l)).rest = 10 :: c :: rest := by
    have h5 : (armed l).rest = (47 :: 47 :: text) ++ 10 :: c :: rest := by
      rw [hin1]
      simp
    exact rest_skips_of_append h5
  have hr1 : (skips 1 (skips (text.length + 2) (armed l))).rest = c :: rest := rest_skips_one hr
  have hl := lookahead_of_rest_cons hr1
  obtain ⟨h1, h2, h3, _⟩ := not_hspace_of_closer hc
  have hline : line_comment_loop (skip (armed l)) = skips (text.length + 2) (armed l) := by
    have hr0 : (skips 1 (armed l)).rest = (47 :: text) ++ 10 :: c :: rest := rest_skips_one hin1
    have ht1 : ∀ x ∈ 47 :: text, x ≠ 0 ∧ x ≠ 10 := by
      intro x hx
      rcases List.mem_cons.mp hx with h47 | hmem
      · rw [h47]
        exact ⟨by decide, by decide⟩
      · exact ht x hmem
    rw [skip_of_rest_cons hin1, line_comment_loop_run (47 :: text) _ _ hr0 ht1 (Or.inr rfl),
      skips_skips, List.length_cons]
    have hlen : 1 + (text.length + 1) = text.length + 2 := by omega
    rw [hlen]
  have hloop : semicolon_loop (armed l) true
      = LoopExit.brk (skips (text.length + 3) (armed l)) false := by
    rw [semicolon_loop_line_comment true text (10 :: c :: rest) hin1 ht (Or.inr rfl),
      semicolon_loop_newline true (eof_false_of_rest_cons hr) (lookahead_of_rest_cons hr),
      skip_of_rest_cons hr]
    have hsk : skips 1 (skips (text.length + 2) (armed l)) = skips (text.length + 3) (armed l) :=
      skips_skips 1 (text.length + 2) (armed l)
    rw [← hsk]
    exact semicolon_loop_other false (eof_false_of_rest_cons hr1) (by rw [hl]; exact h1)
      (by rw [hl]; exact h2) (by rw [hl]; exact h3)
  rw [scan_of_candidate payload l valid_symbols hv, scan_automatic_semicolon_of_brk hloop]
  have hl3 : (skips (text.length + 3) (armed l)).lookahead = c := by
    rw [← skips_skips 1 (text.length + 2) (armed l)]
    exact hl
  rw [hl3, decide_eq_true hc]
  exact ⟨rfl, rfl, hline, lookahead_of_rest_cons hr⟩

/-- C15: the line comment of "//\0\n}" is ended by a newline that is followed by a
closing bracket, yet the scan answers not-recognized: the comment loop stops on
the NUL, before the newline, and the outer loop breaks there with `sameline` set,
so the newline is never consumed. -/
theorem scan_line_comment_nul_newline :
    tree_sitter_zag_external_scanner_scan () ⟨[47, 47, 0, 10, 125], 0, 0, none, []⟩
        (fun _ => true)
      = (false, ⟨[47, 47, 0, 10, 125], 2, 0, some 0, [(0, true), (1, true)]⟩) := by
  have hloop : semicolon_loop (armed ⟨[47, 47, 0, 10, 125], 0, 0, none, []⟩) true
      = LoopExit.brk (skips 2 (armed ⟨[47, 47, 0, 10, 125], 0, 0, none, []⟩)) true := by
    rw [semicolon_loop_line_comment (l := armed ⟨[47, 47, 0, 10, 125], 0, 0, none, []⟩)
      true [] [0, 10, 125] rfl (by simp) (Or.inl rfl)]
    exact semicolon_loop_other true (by decide) (by decide) (by decide) (by decide)
  rw [scan_of_candidate _ _ _ rfl, scan_automatic_semicolon_of_brk hloop]
  rfl

/-! ## Termination and the cursor -/

theorem Frame.log_eq {l r : TSLexer} (h : Frame l r) :
    r.log = l.log ++ (List.range' l.pos (r.pos - l.pos)).map (fun p => (p, true)) := by
  obtain ⟨n, _, rfl⟩ := h
  rw [skips_pos, Nat.add_sub_cancel_left]
  rfl

theorem Frame.pos_le_length {l r : TSLexer} (h : Frame l r) (hpos : l.pos ≤ l.input.length) :
    r.pos ≤ l.input.length := by
  obtain ⟨n, hn, rfl⟩ := h
  rw [skips_pos]
  unfold TSLexer.remaining at hn
  omega

/-- The calls logged between `l` and `r` are discard-mode calls made on a character
of the input, at the offsets the cursor passed. -/
theorem Frame.new_calls {l r : TSLexer} (h : Frame l r) :
    ∀ e ∈ r.log.drop l.log.length,
      e.2 = true ∧ l.pos ≤ e.1 ∧ e.1 < r.pos ∧ e.1 < l.input.length := by
  obtain ⟨n, hn, rfl⟩ := h
  intro e he
  have hlog : (Zag.skips n l).log
      = l.log ++ (List.range' l.pos n).map (fun q => (q, true)) := rfl
  rw [hlog, List.drop_left, List.mem_map] at he
  obtain ⟨p, hp, rfl⟩ := he
  rw [List.mem_range'_1] at hp
  rw [skips_pos]
  unfold TSLexer.remaining at hn
  refine ⟨rfl, hp.1, hp.2, ?_⟩
  show p < l.input.length
  omega

/-- The lexer the scan leaves behind is the one it was given, or the armed one,
after some characters were consumed. -/
theorem scan_frame (payload : Unit) (l : TSLexer) (valid_symbols : TokenType → Bool) :
    Frame l (tree_sitter_zag_external_scanner_scan payload l valid_symbols).2 ∨
      Frame (armed l) (tree_sitter_zag_external_scanner_scan payload l valid_symbols).2 := by
  by_cases hv : valid_symbols TokenType.AUTOMATIC_SEMICOLON = true
  · rw [scan_of_candidate payload l valid_symbols hv]
    exact Or.inr (scan_automatic_semicolon_frame l)
  · rw [tree_sitter_zag_external_scanner_scan, if_neg hv]
    exact Or.inl (Frame.refl l)

theorem semicolon_loop_progress (m : TSLexer) (s : Bool) (he : ¬ m.eof = true) :
    semicolon_loop m s = LoopExit.brk m s ∨
      (∃ r, semicolon_loop m s = LoopExit.ret false r ∧ r.remaining < m.remaining) ∨
      (∃ n s1, semicolon_loop m s = semicolon_loop n s1 ∧ n.remaining < m.remaining) := by
  have hlt := remaining_skip_lt m (pos_lt_of_not_eof he)
  by_cases h1 : m.lookahead = 32 ∨ m.lookahead = 9 ∨ m.lookahead = 13
  · exact Or.inr (Or.inr ⟨skip m, s, semicolon_loop_hspace s he h1, hlt⟩)
  · by_cases h2 : m.lookahead = 10
    · exact Or.inr (Or.inr ⟨skip m, false, semicolon_loop_newline s he h2, hlt⟩)
    · by_cases h3 : m.lookahead = 47
      · by_cases h4 : (skip m).lookahead = 47
        · exact Or.inr (Or.inr ⟨line_comment_loop (skip m), s, semicolon_loop_line s he h3 h4,
            lt_of_le_of_lt (remaining_line_comment_loop _) hlt⟩)
        · by_cases h5 : (skip m).lookahead = 42
          · have hb := remaining_block_comment_loop (skip (skip m)) s
            have hle := remaining_skip_le (skip m)
            cases hc : block_comment_loop (skip (skip m)) s with
            | ret v r =>
              rw [hc] at hb
              exact Or.inr (Or.inl ⟨r, semicolon_loop_block_ret s he h3 h5 hc,
                lt_of_le_of_lt (le_trans hb hle) hlt⟩)
            | brk r s1 =>
              rw [hc] at hb
              exact Or.inr (Or.inr ⟨r, s1, semicolon_loop_block_brk s he h3 h5 hc,
                lt_of_le_of_lt (le_trans hb hle) hlt⟩)
          · exact Or.inr (Or.inl ⟨skip m, semicolon_loop_bare_slash s he h3 h4 h5, hlt⟩)
      · exact Or.inl (semicolon_loop_other s he h1 h2 h3)

/-- C12: the scan terminates. The loops are defined by well-founded recursion on the
number of remaining characters, and here is why that is sound: an iteration of
the line-comment loop, of the block-comment loop or of the outer loop either
leaves the loop or goes on from a lexer with fewer characters remaining. As a
result the whole scan makes at most as many `advance` calls as characters remain
and moves the cursor by exactly that many. -/
theorem scan_terminates (payload : Unit) (l : TSLexer) (valid_symbols : TokenType → Bool) :
    (∃ n, n ≤ l.remaining ∧
      (tree_sitter_zag_external_scanner_scan payload l valid_symbols).2.pos = l.pos + n ∧
      (tree_sitter_zag_external_scanner_scan payload l valid_symbols).2.log.length
        = l.log.length + n) ∧
    (∀ m : TSLexer,
      (m.lookahead ≠ 0 ∧ m.lookahead ≠ 10 →
        line_comment_loop m = line_comment_loop (skip m) ∧ (skip m).remaining < m.remaining) ∧
      (¬ (m.lookahead ≠ 0 ∧ m.lookahead ≠ 10) → line_comment_loop m = m)) ∧
    (∀ (m : TSLexer) (s : Bool),
      (m.lookahead = 0 → block_comment_loop m s = LoopExit.ret false m) ∧
      (m.lookahead ≠ 0 → (skip m).remaining < m.remaining ∧
        (block_comment_loop m s = LoopExit.brk (skip (skip m)) (sameline_after m s) ∨
          block_comment_loop m s = block_comment_loop (skip m) (sameline_after m s)))) ∧
    (∀ (m : TSLexer) (s : Bool),
      (m.eof = true → semicolon_loop m s = LoopExit.ret true m) ∧
      (¬ m.eof = true →
        semicolon_loop m s = LoopExit.brk m s ∨
        (∃ r, semicolon_loop m s = LoopExit.ret false r ∧ r.remaining < m.remaining) ∨
        (∃ n s1, semicolon_loop m s = semicolon_loop n s1 ∧ n.remaining < m.remaining))) := by
  refine ⟨?_, ?_, ?_, ?_⟩
  · have hskips : ∀ (a r : TSLexer), a.pos = l.pos → a.log = l.log → a.remaining = l.remaining →
        Frame a r → ∃ n, n ≤ l.remaining ∧ r.pos = l.pos + n ∧ r.log.length = l.log.length + n := by
      intro a r hp hlog hrem hf
      obtain ⟨n, hn, rfl⟩ := hf
      refine ⟨n, hrem ▸ hn, ?_, ?_⟩
      · rw [skips_pos, hp]
      · simp [skips, hlog]
    rcases scan_frame payload l valid_symbols with hf | hf
    · exact hskips l _ rfl rfl rfl hf
    · exact hskips (armed l) _ rfl rfl rfl hf
  · intro m
    constructor
    · intro h
      refine ⟨?_, remaining_skip_lt m (pos_lt_of_lookahead_ne_zero m h.1)⟩
      rw [line_comment_loop, dif_pos h]
    · intro h
      rw [line_comment_loop, dif_neg h]
  · intro m s
    constructor
    · intro h0
      rw [block_comment_loop, dif_pos h0]
    · intro h0
      refine ⟨remaining_skip_lt m (pos_lt_of_lookahead_ne_zero m h0), ?_⟩
      by_cases h : m.lookahead = 42 ∧ (skip m).lookahead = 47
      · left
        rw [block_comment_loop, dif_neg h0, if_pos h.1, if_pos h.2]
      · right
        exact block_comment_loop_step s h0 (fun h42 h47 => h ⟨h42, h47⟩)
  · intro m s
    exact ⟨semicolon_loop_eof s, semicolon_loop_progress m s⟩

/-- C13: the cursor only moves forward and only in discard mode. From a cursor inside
the input, the final cursor is at or after the starting one and not past the end
of the input; the input is not changed; the calls the scan adds to the log are
one discard-mode call for each offset from the starting cursor to the final one,
in order; each was made on a character of the input, so none at end-of-input,
and none in include-in-token mode. -/
theorem scan_cursor_monotone_discard_only (payload : Unit) (l : TSLexer)
    (valid_symbols : TokenType → Bool) (hpos : l.pos ≤ l.input.length) :
    l.pos ≤ (tree_sitter_zag_external_scanner_scan payload l valid_symbols).2.pos ∧
      (tree_sitter_zag_external_scanner_scan payload l valid_symbols).2.pos
        ≤ l.input.length ∧
      (tree_sitter_zag_external_scanner_scan payload l valid_symbols).2.input = l.input ∧
      (tree_sitter_zag_external_scanner_scan payload l valid_symbols).2.log
        = l.log ++ (List.range' l.pos
            ((tree_sitter_zag_external_scanner_scan payload l valid_symbols).2.pos - l.pos)).map
              (fun p => (p, true)) ∧
      (∀ e ∈ (tree_sitter_zag_external_scanner_scan payload l valid_symbols).2.log.drop
            l.log.length,
          e.2 = true ∧ e.1 < l.input.length) := by
  have key : ∀ (a r : TSLexer), a.pos = l.pos → a.log = l.log → a.input = l.input →
      Frame a r →
      l.pos ≤ r.pos ∧ r.pos ≤ l.input.length ∧ r.input = l.input ∧
        r.log = l.log ++ (List.range' l.pos (r.pos - l.pos)).map (fun p => (p, true)) ∧
        (∀ e ∈ r.log.drop l.log.length, e.2 = true ∧ e.1 < l.input.length) := by
    intro a r hp hlog hin hf
    have h1 := hf.pos_le
    have h2 := hf.pos_le_length (by rw [hp, hin]; exact hpos)
    have h3 := hf.log_eq
    have h4 := hf.new_calls
    rw [hp] at h1
    rw [hin] at h2
    rw [hp, hlog] at h3
    rw [hlog, hin] at h4
    exact ⟨h1, h2, hf.input_eq.trans hin, h3, fun e he => ⟨(h4 e he).1, (h4 e he).2.2.2⟩⟩
  rcases scan_frame payload l valid_symbols with hf | hf
  · exact key l _ rfl rfl rfl hf
  · exact key (armed l) _ rfl rfl rfl hf

/-- Witness of C13 on "\n}": the cursor goes from offset 0 to offset 1 and the log
gains the one discard-mode call made on the newline. -/
theorem scan_cursor_monotone_discard_only_witness :
    (0 : Nat) ≤ (tree_sitter_zag_external_scanner_scan () ⟨[10, 125], 0, 7, none, []⟩
        (fun _ => true)).2.pos ∧
      (tree_sitter_zag_external_scanner_scan () ⟨[10, 125], 0, 7, none, []⟩
        (fun _ => true)).2.pos ≤ 2 ∧
      (tree_sitter_zag_external_scanner_scan () ⟨[10, 125], 0, 7, none, []⟩
        (fun _ => true)).2.input = [10, 125] ∧
      (tree_sitter_zag_external_scanner_scan () ⟨[10, 125], 0, 7, none, []⟩
        (fun _ => true)).2.log
        = [] ++ (List.range' 0
            ((tree_sitter_zag_external_scanner_scan () ⟨[10, 125], 0, 7, none, []⟩
              (fun _ => true)).2.pos - 0)).map (fun p => (p, true)) ∧
      (∀ e ∈ (tree_sitter_zag_external_scanner_scan () ⟨[10, 125], 0, 7, none, []⟩
            (fun _ => true)).2.log.drop 0,
          e.2 = true ∧ e.1 < 2) :=
  scan_cursor_monotone_discard_only () ⟨[10, 125], 0, 7, none, []⟩ (fun _ => true) (by decide)

/-! ## The lifecycle operations -/

/-- C14: the lifecycle operations carry no state. For every payload and buffer,
serialize reports length 0 and leaves the buffer as it was; deserialize of any
bytes with any length leaves the payload as it was; and deserialize applied to
what serialize produced (its first 0 bytes, that is none) leaves the payload
equal to the one create returns. -/
theorem lifecycle_stateless (payload : Unit) (buffer bytes : List Int) (length : Nat) :
    tree_sitter_zag_external_scanner_serialize payload buffer = (0, buffer) ∧
      tree_sitter_zag_external_scanner_deserialize payload bytes length = payload ∧
      (tree_sitter_zag_external_scanner_serialize payload buffer).2.take
          (tree_sitter_zag_external_scanner_serialize payload buffer).1 = [] ∧
      tree_sitter_zag_external_scanner_deserialize payload
          ((tree_sitter_zag_external_scanner_serialize payload buffer).2.take
            (tree_sitter_zag_external_scanner_serialize payload buffer).1)
          (tree_sitter_zag_external_scanner_serialize payload buffer).1
        = tree_sitter_zag_external_scanner_create :=
  ⟨rfl, rfl, rfl, rfl⟩

/-! ## The whitespace and comment skip helper -/

theorem getElem?_pos_of_not_eof {l : TSLexer} (he : ¬ l.eof = true) :
    l.input[l.pos]? = some l.lookahead := by
  have hlt := pos_lt_of_not_eof he
  unfold TSLexer.lookahead
  rw [List.getD_eq_getElem?_getD, List.getElem?_eq_getElem hlt]
  rfl

theorem whitespace_loop_frame (loc : Locale) (l : TSLexer) :
    Frame l (whitespace_loop loc l) := by
  induction l using whitespace_loop.induct loc with
  | case1 l h ih =>
    rw [whitespace_loop, dif_pos h]
    have h0 : l.lookahead ≠ 0 := by
      intro h0
      rw [h0, loc.nul_not_space] at h
      exact Bool.noConfusion h
    exact (Frame.skip (pos_lt_of_lookahead_ne_zero l h0)).trans ih
  | case2 l h =>
    rw [whitespace_loop, dif_neg h]
    exact Frame.refl l

/-- The whitespace loop stops on a lookahead that is not whitespace. -/
theorem whitespace_loop_stop (loc : Locale) (l : TSLexer) :
    loc.iswspace (whitespace_loop loc l).lookahead = false := by
  induction l using whitespace_loop.induct loc with
  | case1 l h ih =>
    rw [whitespace_loop, dif_pos h]
    exact ih
  | case2 l h =>
    rw [whitespace_loop, dif_neg h]
    exact Bool.eq_false_iff.mpr h

/-- On a run `w` of whitespace followed by a lookahead that is not whitespace, the
whitespace loop consumes exactly `w`. -/
theorem whitespace_loop_run (loc : Locale) (w : List Int) :
    ∀ (l : TSLexer) (xs : List Int), l.rest = w ++ xs → (∀ c ∈ w, loc.iswspace c = true) →
      loc.iswspace (xs.headD 0) = false → whitespace_loop loc l = skips w.length l := by
  induction w with
  | nil =>
    intro l xs h _ hx
    rw [List.nil_append] at h
    have hl : l.lookahead = xs.headD 0 := by rw [lookahead_eq_headD, h]
    rw [whitespace_loop, dif_neg (by rw [hl, hx]; decide), List.length_nil, skips_zero]
  | cons c w ih =>
    intro l xs h0 hw hx
    have h : l.rest = c :: (w ++ xs) := h0
    have hl : l.lookahead = c := lookahead_of_rest_cons h
    rw [whitespace_loop, dif_pos (by rw [hl]; exact hw c (List.mem_cons_self c w)),
      skip_of_rest_cons h,
      ih (skips 1 l) xs (rest_skips_one h) (fun d hd => hw d (List.mem_cons_of_mem c hd)) hx,
      skips_skips, List.length_cons, Nat.add_comm]

theorem whitespace_line_comment_loop_frame (l : TSLexer) :
    Frame l (whitespace_line_comment_loop l) := by
  induction l using whitespace_line_comment_loop.induct with
  | case1 l h ih =>
    rw [whitespace_line_comment_loop, dif_pos h]
    exact (Frame.skip (pos_lt_of_lookahead_ne_zero l h.1)).trans ih
  | case2 l h =>
    rw [whitespace_line_comment_loop, dif_neg h]
    exact Frame.refl l

theorem whitespace_block_comment_loop_frame (l : TSLexer) :
    Frame l (whitespace_block_comment_loop l).2 := by
  induction l using whitespace_block_comment_loop.induct with
  | case1 l h0 =>
    rw [whitespace_block_comment_loop, dif_pos h0]
    exact Frame.refl l
  | case2 l h0 h42 h47 =>
    rw [whitespace_block_comment_loop, dif_neg h0, if_pos h42, if_pos h47]
    exact (Frame.skip (pos_lt_of_lookahead_ne_zero l h0)).trans
      (Frame.skip (pos_lt_of_lookahead_ne_zero _ (by rw [h47]; decide)))
  | case3 l h0 h42 h47 ih =>
    rw [whitespace_block_comment_loop, dif_neg h0, if_pos h42, if_neg h47]
    exact (Frame.skip (pos_lt_of_lookahead_ne_zero l h0)).trans ih
  | case4 l h0 h42 ih =>
    rw [whitespace_block_comment_loop, dif_neg h0, if_neg h42]
    exact (Frame.skip (pos_lt_of_lookahead_ne_zero l h0)).trans ih

theorem scan_whitespace_line (loc : Locale) {l : TSLexer}
    (h : (whitespace_loop loc l).lookahead = 47)
    (h1 : (skip (whitespace_loop loc l)).lookahead = 47) :
    scan_whitespace loc l
      = scan_whitespace loc
          (whitespace_line_comment_loop (skip (skip (whitespace_loop loc l)))) := by
  rw [scan_whitespace, dif_pos h, if_pos h1]

theorem scan_whitespace_block_false (loc : Locale) {l r : TSLexer}
    (h : (whitespace_loop loc l).lookahead = 47)
    (h1 : (skip (whitespace_loop loc l)).lookahead = 42)
    (hb : whitespace_block_comment_loop (skip (skip (whitespace_loop loc l))) = (false, r)) :
    scan_whitespace loc l = (false, r) := by
  rw [scan_whitespace, dif_pos h, if_neg (by rw [h1]; decide), if_pos h1]
  split
  · rename_i r1 heq
    rw [hb] at heq
    injection heq with _ hr
    rw [hr]
  · rename_i r1 heq
    rw [hb] at heq
    injection heq with hv _
    exact Bool.noConfusion hv

theorem scan_whitespace_block_true (loc : Locale) {l r : TSLexer}
    (h : (whitespace_loop loc l).lookahead = 47)
    (h1 : (skip (whitespace_loop loc l)).lookahead = 42)
    (hb : whitespace_block_comment_loop (skip (skip (whitespace_loop loc l))) = (true, r)) :
    scan_whitespace loc l = scan_whitespace loc r := by
  rw [scan_whitespace, dif_pos h, if_neg (by rw [h1]; decide), if_pos h1]
  split
  · rename_i r1 heq
    rw [hb] at heq
    injection heq with hv _
    exact Bool.noConfusion hv
  · rename_i r1 heq
    rw [hb] at heq
    injection heq with _ hr
    rw [hr]

theorem scan_whitespace_bare_slash_step (loc : Locale) {l : TSLexer}
    (h : (whitespace_loop loc l).lookahead = 47)
    (h1 : (skip (whitespace_loop loc l)).lookahead ≠ 47)
    (h2 : (skip (whitespace_loop loc l)).lookahead ≠ 42) :
    scan_whitespace loc l = (false, skip (whitespace_loop loc l)) := by
  rw [scan_whitespace, dif_pos h, if_neg h1, if_neg h2]

theorem scan_whitespace_done (loc : Locale) {l : TSLexer}
    (h : ¬ (whitespace_loop loc l).lookahead = 47) :
    scan_whitespace loc l = (true, whitespace_loop loc l) := by
  rw [scan_whitespace, dif_neg h]

/-- What lies before the comment body: the whitespace run and the two characters of
the opener, all consumed. -/
theorem frame_to_comment_body (loc : Locale) {l : TSLexer}
    (h : (whitespace_loop loc l).lookahead = 47)
    (h1 : (skip (whitespace_loop loc l)).lookahead ≠ 0) :
    Frame l (skip (skip (whitespace_loop loc l))) :=
  ((whitespace_loop_frame loc l).trans
    (Frame.skip (pos_lt_of_lookahead_ne_zero _ (by rw [h]; decide)))).trans
    (Frame.skip (pos_lt_of_lookahead_ne_zero _ h1))

theorem scan_whitespace_frame (loc : Locale) (l : TSLexer) :
    Frame l (scan_whitespace loc l).2 := by
  induction l using scan_whitespace.induct loc with
  | case1 l h h1 ih =>
    rw [scan_whitespace_line loc h h1]
    exact ((frame_to_comment_body loc h (by rw [h1]; decide)).trans
      (whitespace_line_comment_loop_frame _)).trans ih
  | case2 l h _ h1 r hb =>
    rw [scan_whitespace_block_false loc h h1 hb]
    have hf := whitespace_block_comment_loop_frame (skip (skip (whitespace_loop loc l)))
    rw [hb] at hf
    exact (frame_to_comment_body loc h (by rw [h1]; decide)).trans hf
  | case3 l h _ h1 r hb ih =>
    rw [scan_whitespace_block_true loc h h1 hb]
    have hf := whitespace_block_comment_loop_frame (skip (skip (whitespace_loop loc l)))
    rw [hb] at hf
    exact ((frame_to_comment_body loc h (by rw [h1]; decide)).trans hf).trans ih
  | case4 l h h1 h2 =>
    rw [scan_whitespace_bare_slash_step loc h h1 h2]
    exact (whitespace_loop_frame loc l).trans
      (Frame.skip (pos_lt_of_lookahead_ne_zero _ (by rw [h]; decide)))
  | case5 l h =>
    rw [scan_whitespace_done loc h]
    exact whitespace_loop_frame loc l

/-- Success leaves the cursor on a lookahead that is neither whitespace nor a slash. -/
theorem scan_whitespace_success (loc : Locale) (l : TSLexer) :
    (scan_whitespace loc l).1 = true →
      loc.iswspace (scan_whitespace loc l).2.lookahead = false ∧
        (scan_whitespace loc l).2.lookahead ≠ 47 := by
  induction l using scan_whitespace.induct loc with
  | case1 l h h1 ih =>
    rw [scan_whitespace_line loc h h1]
    exact ih
  | case2 l h _ h1 r hb =>
    rw [scan_whitespace_block_false loc h h1 hb]
    intro hv
    exact Bool.noConfusion hv
  | case3 l h _ h1 r hb ih =>
    rw [scan_whitespace_block_true loc h h1 hb]
    exact ih
  | case4 l h h1 h2 =>
    rw [scan_whitespace_bare_slash_step loc h h1 h2]
    intro hv
    exact Bool.noConfusion hv
  | case5 l h =>
    rw [scan_whitespace_done loc h]
    intro _
    exact ⟨whitespace_loop_stop loc l, h⟩

/-- C17: when the whitespace and comment skip helper returns success, the cursor is at
end-of-input or on a character that is neither whitespace nor a slash, and what
it consumed lies between the starting cursor and the final one, each character
once and in discard mode: the log gains one discard-mode call per offset passed. -/
theorem scan_whitespace_postcondition (loc : Locale) (l : TSLexer)
    (h : (scan_whitespace loc l).1 = true) :
    ((scan_whitespace loc l).2.eof = true ∨
        ∃ c, (scan_whitespace loc l).2.input[(scan_whitespace loc l).2.pos]? = some c ∧
          loc.iswspace c = false ∧ c ≠ 47) ∧
      l.pos ≤ (scan_whitespace loc l).2.pos ∧
      (scan_whitespace loc l).2.input = l.input ∧
      (scan_whitespace loc l).2.log
        = l.log ++ (List.range' l.pos ((scan_whitespace loc l).2.pos - l.pos)).map
            (fun p => (p, true)) := by
  have hf := scan_whitespace_frame loc l
  have hs := scan_whitespace_success loc l h
  refine ⟨?_, hf.pos_le, hf.input_eq, hf.log_eq⟩
  by_cases he : (scan_whitespace loc l).2.eof = true
  · exact Or.inl he
  · exact Or.inr ⟨_, getElem?_pos_of_not_eof he, hs.1, hs.2⟩

/-- On whitespace followed by a character that is neither whitespace nor a slash, the
helper returns success with the cursor on that character. -/
theorem scan_whitespace_run (loc : Locale) (l : TSLexer) (w : List Int) (c : Int)
    (rest : List Int) (hin : l.rest = w ++ c :: rest) (hw : ∀ x ∈ w, loc.iswspace x = true)
    (hc : loc.iswspace c = false) (hslash : c ≠ 47) :
    scan_whitespace loc l = (true, skips w.length l) := by
  have hrun := whitespace_loop_run loc w l (c :: rest) hin hw hc
  have hl : (skips w.length l).lookahead = c :=
    lookahead_of_rest_cons (rest_skips_of_append hin)
  rw [scan_whitespace_done loc (by rw [hrun, hl]; exact hslash), hrun]

/-- Witness of C17 in the "C" locale on " \n}". -/
theorem scan_whitespace_postcondition_witness :
    (scan_whitespace cLocale ⟨[32, 10, 125], 0, 7, none, []⟩).1 = true ∧
    (((scan_whitespace cLocale ⟨[32, 10, 125], 0, 7, none, []⟩).2.eof = true ∨
        ∃ c, (scan_whitespace cLocale ⟨[32, 10, 125], 0, 7, none, []⟩).2.input[
            (scan_whitespace cLocale ⟨[32, 10, 125], 0, 7, none, []⟩).2.pos]? = some c ∧
          cLocale.iswspace c = false ∧ c ≠ 47) ∧
      0 ≤ (scan_whitespace cLocale ⟨[32, 10, 125], 0, 7, none, []⟩).2.pos ∧
      (scan_whitespace cLocale ⟨[32, 10, 125], 0, 7, none, []⟩).2.input = [32, 10, 125] ∧
      (scan_whitespace cLocale ⟨[32, 10, 125], 0, 7, none, []⟩).2.log
        = [] ++ (List.range' 0
            ((scan_whitespace cLocale ⟨[32, 10, 125], 0, 7, none, []⟩).2.pos - 0)).map
              (fun p => (p, true))) :=
  have hv : (scan_whitespace cLocale ⟨[32, 10, 125], 0, 7, none, []⟩).1 = true := by
    rw [scan_whitespace_run cLocale ⟨[32, 10, 125], 0, 7, none, []⟩ [32, 10] 125 [] rfl
      (by decide) (by decide) (by decide)]
  ⟨hv, scan_whitespace_postcondition cLocale ⟨[32, 10, 125], 0, 7, none, []⟩ hv⟩

/-- C18: on whitespace followed by a slash that is followed by neither a slash nor a
star (or by nothing), the helper returns failure, and the final cursor is exactly
one past the slash: the slash was consumed in discard mode and is not left for
token-level handling. The slash itself is not whitespace. -/
theorem scan_whitespace_bare_slash (loc : Locale) (l : TSLexer) (w rest : List Int)
    (hslash : loc.iswspace 47 = false)
    (hin : l.rest = w ++ 47 :: rest) (hw : ∀ x ∈ w, loc.iswspace x = true)
    (h1 : rest.head? ≠ some 47) (h2 : rest.head? ≠ some 42) :
    (scan_whitespace loc l).1 = false ∧
      (scan_whitespace loc l).2.pos = l.pos + w.length + 1 ∧
      (scan_whitespace loc l).2 = skips (w.length + 1) l := by
  have hrun := whitespace_loop_run loc w l (47 :: rest) hin hw hslash
  have hr : (skips w.length l).rest = 47 :: rest := rest_skips_of_append hin
  have hl := lookahead_of_rest_cons hr
  have hsk : skip (skips w.length l) = skips (w.length + 1) l := by
    rw [skip_of_rest_cons hr, skips_skips]
  have hnext : (skips (w.length + 1) l).lookahead = rest.headD 0 := by
    rw [← hsk, skip_of_rest_cons hr, lookahead_eq_headD, rest_skips_one hr]
  have hne : rest.headD 0 ≠ 47 ∧ rest.headD 0 ≠ 42 := by
    cases rest with
    | nil => exact ⟨by decide, by decide⟩
    | cons d t =>
      refine ⟨fun h => h1 ?_, fun h => h2 ?_⟩
      · exact congrArg some h
      · exact congrArg some h
  have hres : scan_whitespace loc l = (false, skips (w.length + 1) l) := by
    rw [scan_whitespace_bare_slash_step loc (by rw [hrun]; exact hl)
      (by rw [hrun, hsk, hnext]; exact hne.1) (by rw [hrun, hsk, hnext]; exact hne.2),
      hrun, hsk]
  rw [hres]
  exact ⟨rfl, (Nat.add_assoc _ _ _).symm, rfl⟩

/-- Witness of C18 in the "C" locale on " /x". -/
theorem scan_whitespace_bare_slash_witness :
    (scan_whitespace cLocale ⟨[32, 47, 120], 0, 7, none, []⟩).1 = false ∧
      (scan_whitespace cLocale ⟨[32, 47, 120], 0, 7, none, []⟩).2.pos = 0 + 1 + 1 ∧
      (scan_whitespace cLocale ⟨[32, 47, 120], 0, 7, none, []⟩).2
        = skips 2 ⟨[32, 47, 120], 0, 7, none, []⟩ :=
  scan_whitespace_bare_slash cLocale ⟨[32, 47, 120], 0, 7, none, []⟩ [32] [120] (by decide)
    rfl (by decide) (by decide) (by decide)

/-! ## Lookahead locality -/

theorem skip_input (l : TSLexer) : (skip l).input = l.input := by
  unfold skip TSLexer.advance
  split <;> rfl

theorem pos_le_skip (l : TSLexer) : l.pos ≤ (skip l).pos := by
  unfold skip TSLexer.advance
  split
  · exact Nat.le_succ _
  · exact le_refl _

theorem Agree.after_skip {input : List Int} {l : TSLexer} {b : Nat} (h : Agree input l b) :
    Agree input (skip l) b := by
  intro p hp hb
  rw [skip_input]
  exact h p (le_trans (pos_le_skip l) hp) hb

theorem Agree.frame {input : List Int} {l r : TSLexer} {b : Nat} (h : Agree input l b)
    (hf : Frame l r) : Agree input r b := by
  intro p hp hb
  rw [hf.input_eq]
  exact h p (le_trans hf.pos_le hp) hb

theorem lookahead_withInput {input : List Int} {l : TSLexer} {b : Nat}
    (h : Agree input l b) (hb : l.pos ≤ b) : (l.withInput input).lookahead = l.lookahead := by
  have h1 := h l.pos (le_refl _) hb
  unfold TSLexer.lookahead TSLexer.withInput
  simp only [List.getD_eq_getElem?_getD]
  rw [h1]

theorem length_le_iff_of_agree {input : List Int} {l : TSLexer} {b : Nat}
    (h : Agree input l b) (hb : l.pos ≤ b) :
    input.length ≤ l.pos ↔ l.input.length ≤ l.pos := by
  have h1 := h l.pos (le_refl _) hb
  rw [← List.getElem?_eq_none_iff, ← List.getElem?_eq_none_iff, h1]

theorem eof_withInput {input : List Int} {l : TSLexer} {b : Nat}
    (h : Agree input l b) (hb : l.pos ≤ b) : (l.withInput input).eof = l.eof := by
  unfold TSLexer.eof TSLexer.withInput
  exact decide_eq_decide.mpr (length_le_iff_of_agree h hb)

theorem skip_withInput {input : List Int} {l : TSLexer} {b : Nat}
    (h : Agree input l b) (hb : l.pos ≤ b) :
    skip (l.withInput input) = (skip l).withInput input := by
  have h1 := length_le_iff_of_agree h hb
  unfold skip TSLexer.advance TSLexer.withInput
  by_cases hlt : l.pos < l.input.length
  · have hlt2 : l.pos < input.length := by omega
    simp only [if_pos hlt, if_pos hlt2]
  · have hlt2 : ¬ l.pos < input.length := by omega
    simp only [if_neg hlt, if_neg hlt2]

theorem sameline_after_withInput {input : List Int} {l : TSLexer} {b : Nat} (s : Bool)
    (h : Agree input l b) (hb : l.pos ≤ b) :
    sameline_after (l.withInput input) s = sameline_after l s := by
  unfold sameline_after
  rw [lookahead_withInput h hb]

theorem line_comment_loop_go {l : TSLexer} (h : l.lookahead ≠ 0 ∧ l.lookahead ≠ 10) :
    line_comment_loop l = line_comment_loop (skip l) := by
  rw [line_comment_loop, dif_pos h]

theorem line_comment_loop_halt {l : TSLexer} (h : ¬ (l.lookahead ≠ 0 ∧ l.lookahead ≠ 10)) :
    line_comment_loop l = l := by
  rw [line_comment_loop, dif_neg h]

theorem block_comment_loop_nul {l : TSLexer} (s : Bool) (h0 : l.lookahead = 0) :
    block_comment_loop l s = LoopExit.ret false l := by
  rw [block_comment_loop, dif_pos h0]

theorem block_comment_loop_closer {l : TSLexer} (s : Bool) (h42 : l.lookahead = 42)
    (h47 : (skip l).lookahead = 47) :
    block_comment_loop l s = LoopExit.brk (skip (skip l)) (sameline_after l s) := by
  rw [block_comment_loop, dif_neg (by rw [h42]; decide), if_pos h42, if_pos h47]

/-- The line-comment loop reads nothing beyond the character it stops on. -/
theorem line_comment_loop_local (input : List Int) (l : TSLexer) :
    ∀ b, Agree input l b → (line_comment_loop l).pos ≤ b →
      line_comment_loop (l.withInput input) = (line_comment_loop l).withInput input := by
  induction l using line_comment_loop.induct with
  | case1 l h ih =>
    intro b hA hb
    rw [line_comment_loop_go h] at hb ⊢
    have hpos : l.pos ≤ b :=
      le_trans (le_trans (pos_le_skip l) (line_comment_loop_frame (skip l)).pos_le) hb
    rw [line_comment_loop_go (by rw [lookahead_withInput hA hpos]; exact h),
      skip_withInput hA hpos]
    exact ih b hA.after_skip hb
  | case2 l h =>
    intro b hA hb
    rw [line_comment_loop_halt h] at hb ⊢
    rw [line_comment_loop_halt (by rw [lookahead_withInput hA hb]; exact h)]

/-- The block-comment loop reads nothing beyond the character it stops on. -/
theorem block_comment_loop_local (input : List Int) (l : TSLexer) (s : Bool) :
    ∀ b, Agree input l b → (block_comment_loop l s).lexer.pos ≤ b →
      block_comment_loop (l.withInput input) s
        = (block_comment_loop l s).withInput input := by
  induction l, s using block_comment_loop.induct with
  | case1 l s h0 =>
    intro b hA hb
    rw [block_comment_loop_nul s h0] at hb ⊢
    have hpos : l.pos ≤ b := hb
    rw [block_comment_loop_nul s (by rw [lookahead_withInput hA hpos]; exact h0)]
    rfl
  | case2 l s h0 h42 h47 =>
    intro b hA hb
    rw [block_comment_loop_closer s h42 h47] at hb ⊢
    have hpos1 : (skip l).pos ≤ b := le_trans (pos_le_skip _) hb
    have hpos : l.pos ≤ b := le_trans (pos_le_skip l) hpos1
    have hl := lookahead_withInput hA hpos
    have hs := skip_withInput hA hpos
    have hl1 := lookahead_withInput hA.after_skip hpos1
    rw [block_comment_loop_closer s (by rw [hl]; exact h42) (by rw [hs, hl1]; exact h47), hs,
      skip_withInput hA.after_skip hpos1, sameline_after_withInput s hA hpos]
    rfl
  | case3 l s h0 h42 h47 ih =>
    intro b hA hb
    have hstep := block_comment_loop_step s h0 (fun _ => h47)
    rw [hstep] at hb ⊢
    have hpos1 : (skip l).pos ≤ b := le_trans (block_comment_loop_frame _ _).pos_le hb
    have hpos : l.pos ≤ b := le_trans (pos_le_skip l) hpos1
    have hl := lookahead_withInput hA hpos
    have hs := skip_withInput hA hpos
    have hl1 := lookahead_withInput hA.after_skip hpos1
    rw [block_comment_loop_step s (by rw [hl]; exact h0)
      (fun _ => by rw [hs, hl1]; exact h47), hs, sameline_after_withInput s hA hpos]
    exact ih b hA.after_skip hb
  | case4 l s h0 h42 ih =>
    intro b hA hb
    have hstep := block_comment_loop_step s h0 (fun h => absurd h h42)
    rw [hstep] at hb ⊢
    have hpos1 : (skip l).pos ≤ b := le_trans (block_comment_loop_frame _ _).pos_le hb
    have hpos : l.pos ≤ b := le_trans (pos_le_skip l) hpos1
    have hl := lookahead_withInput hA hpos
    have hs := skip_withInput hA hpos
    rw [block_comment_loop_step s (by rw [hl]; exact h0)
      (fun h => absurd (hl ▸ h) h42), hs, sameline_after_withInput s hA hpos]
    exact ih b hA.after_skip hb

/-- The outer loop reads nothing beyond the character it stops on. -/
theorem semicolon_loop_local (input : List Int) (l : TSLexer) (s : Bool) :
    ∀ b, Agree input l b → (semicolon_loop l s).lexer.pos ≤ b →
      semicolon_loop (l.withInput input) s = (semicolon_loop l s).withInput input := by
  induction l, s using semicolon_loop.induct with
  | case1 l s he =>
    intro b hA hb
    rw [semicolon_loop_eof s he] at hb ⊢
    have hpos : l.pos ≤ b := hb
    rw [semicolon_loop_eof s (by rw [eof_withInput hA hpos]; exact he)]
    rfl
  | case2 l s he h ih =>
    intro b hA hb
    rw [semicolon_loop_hspace s he h] at hb ⊢
    have hpos1 : (skip l).pos ≤ b := le_trans (semicolon_loop_frame _ _).pos_le hb
    have hpos : l.pos ≤ b := le_trans (pos_le_skip l) hpos1
    rw [semicolon_loop_hspace s (by rw [eof_withInput hA hpos]; exact he)
      (by rw [lookahead_withInput hA hpos]; exact h), skip_withInput hA hpos]
    exact ih b hA.after_skip hb
  | case3 l s he _ h ih =>
    intro b hA hb
    rw [semicolon_loop_newline s he h] at hb ⊢
    have hpos1 : (skip l).pos ≤ b := le_trans (semicolon_loop_frame _ _).pos_le hb
    have hpos : l.pos ≤ b := le_trans (pos_le_skip l) hpos1
    rw [semicolon_loop_newline s (by rw [eof_withInput hA hpos]; exact he)
      (by rw [lookahead_withInput hA hpos]; exact h), skip_withInput hA hpos]
    exact ih b hA.after_skip hb
  | case4 l s he _ _ h h1 ih =>
    intro b hA hb
    rw [semicolon_loop_line s he h h1] at hb ⊢
    have hposL : (line_comment_loop (skip l)).pos ≤ b :=
      le_trans (semicolon_loop_frame _ _).pos_le hb
    have hpos1 : (skip l).pos ≤ b := le_trans (line_comment_loop_frame _).pos_le hposL
    have hpos : l.pos ≤ b := le_trans (pos_le_skip l) hpos1
    have hs := skip_withInput hA hpos
    rw [semicolon_loop_line s (by rw [eof_withInput hA hpos]; exact he)
      (by rw [lookahead_withInput hA hpos]; exact h)
      (by rw [hs, lookahead_withInput hA.after_skip hpos1]; exact h1), hs,
      line_comment_loop_local input (skip l) b hA.after_skip hposL]
    exact ih b (hA.after_skip.frame (line_comment_loop_frame _)) hb
  | case5 l s he _ _ h _ h1 v r hb0 =>
    intro b hA hb
    rw [semicolon_loop_block_ret s he h h1 hb0] at hb ⊢
    have hfb := block_comment_loop_frame (skip (skip l)) s
    rw [hb0] at hfb
    have hpos2 : (skip (skip l)).pos ≤ b := le_trans hfb.pos_le hb
    have hpos1 : (skip l).pos ≤ b := le_trans (pos_le_skip _) hpos2
    have hpos : l.pos ≤ b := le_trans (pos_le_skip l) hpos1
    have hs := skip_withInput hA hpos
    have hs1 := skip_withInput hA.after_skip hpos1
    have hb2 : block_comment_loop (skip (skip (l.withInput input))) s
        = LoopExit.ret v (r.withInput input) := by
      rw [hs, hs1, block_comment_loop_local input (skip (skip l)) s b hA.after_skip.after_skip
        (by rw [hb0]; exact hb), hb0]
      rfl
    rw [semicolon_loop_block_ret s (by rw [eof_withInput hA hpos]; exact he)
      (by rw [lookahead_withInput hA hpos]; exact h)
      (by rw [hs, lookahead_withInput hA.after_skip hpos1]; exact h1) hb2]
    rfl
  | case6 l s he _ _ h _ h1 r s1 hb0 ih =>
    intro b hA hb
    rw [semicolon_loop_block_brk s he h h1 hb0] at hb ⊢
    have hfb := block_comment_loop_frame (skip (skip l)) s
    rw [hb0] at hfb
    have hposr : r.pos ≤ b := le_trans (semicolon_loop_frame _ _).pos_le hb
    have hpos2 : (skip (skip l)).pos ≤ b := le_trans hfb.pos_le hposr
    have hpos1 : (skip l).pos ≤ b := le_trans (pos_le_skip _) hpos2
    have hpos : l.pos ≤ b := le_trans (pos_le_skip l) hpos1
    have hs := skip_withInput hA hpos
    have hs1 := skip_withInput hA.after_skip hpos1
    have hb2 : block_comment_loop (skip (skip (l.withInput input))) s
        = LoopExit.brk (r.withInput input) s1 := by
      rw [hs, hs1, block_comment_loop_local input (skip (skip l)) s b hA.after_skip.after_skip
        (by rw [hb0]; exact hposr), hb0]
      rfl
    rw [semicolon_loop_block_brk s (by rw [eof_withInput hA hpos]; exact he)
      (by rw [lookahead_withInput hA hpos]; exact h)
      (by rw [hs, lookahead_withInput hA.after_skip hpos1]; exact h1) hb2]
    exact ih b (hA.after_skip.after_skip.frame hfb) hb
  | case7 l s he _ _ h h1 h2 =>
    intro b hA hb
    rw [semicolon_loop_bare_slash s he h h1 h2] at hb ⊢
    have hpos1 : (skip l).pos ≤ b := hb
    have hpos : l.pos ≤ b := le_trans (pos_le_skip l) hpos1
    have hs := skip_withInput hA hpos
    rw [semicolon_loop_bare_slash s (by rw [eof_withInput hA hpos]; exact he)
      (by rw [lookahead_withInput hA hpos]; exact h)
      (by rw [hs, lookahead_withInput hA.after_skip hpos1]; exact h1)
      (by rw [hs, lookahead_withInput hA.after_skip hpos1]; exact h2), hs]
    rfl
  | case8 l s he h1 h2 h3 =>
    intro b hA hb
    rw [semicolon_loop_other s he h1 h2 h3] at hb ⊢
    have hpos : l.pos ≤ b := hb
    have hl := lookahead_withInput hA hpos
    rw [semicolon_loop_other s (by rw [eof_withInput hA hpos]; exact he)
      (by rw [hl]; exact h1) (by rw [hl]; exact h2) (by rw [hl]; exact h3)]
    rfl

theorem scan_automatic_semicolon_local (input : List Int) (l : TSLexer)
    (hA : Agree input l (scan_automatic_semicolon l).2.pos) :
    scan_automatic_semicolon (l.withInput input)
      = ((scan_automatic_semicolon l).1, (scan_automatic_semicolon l).2.withInput input) := by
  have harm : armed (l.withInput input) = (armed l).withInput input := rfl
  cases hl : semicolon_loop (armed l) true with
  | ret v r =>
    rw [scan_automatic_semicolon_of_ret hl] at hA ⊢
    have h2 := semicolon_loop_local input (armed l) true r.pos hA (by rw [hl]; exact le_refl _)
    rw [← harm, hl] at h2
    exact scan_automatic_semicolon_of_ret h2
  | brk r s =>
    rw [scan_automatic_semicolon_of_brk hl] at hA ⊢
    have h2 := semicolon_loop_local input (armed l) true r.pos hA (by rw [hl]; exact le_refl _)
    rw [← harm, hl] at h2
    have hf := semicolon_loop_frame (armed l) true
    rw [hl] at hf
    have hlook : (r.withInput input).lookahead = r.lookahead :=
      lookahead_withInput (b := r.pos) (Agree.frame (l := armed l) hA hf) (le_refl _)
    rw [scan_automatic_semicolon_of_brk h2, hlook]

/-- C19: the scan looks at nothing beyond the character under its final cursor. Put
the same lexer over another text that agrees with the first one at every offset
from the starting cursor to the final cursor, both included (the same character
there, or both texts ended there): the scan returns the same verdict and leaves
the same lexer, with the same final cursor and the same end mark, over that text. -/
theorem scan_lookahead_local (payload : Unit) (l : TSLexer)
    (valid_symbols : TokenType → Bool) (input : List Int)
    (hagree : ∀ p, l.pos ≤ p →
      p ≤ (tree_sitter_zag_external_scanner_scan payload l valid_symbols).2.pos →
      l.input[p]? = input[p]?) :
    (tree_sitter_zag_external_scanner_scan payload (l.withInput input) valid_symbols).1
        = (tree_sitter_zag_external_scanner_scan payload l valid_symbols).1 ∧
      (tree_sitter_zag_external_scanner_scan payload (l.withInput input) valid_symbols).2.pos
        = (tree_sitter_zag_external_scanner_scan payload l valid_symbols).2.pos ∧
      (tree_sitter_zag_external_scanner_scan payload (l.withInput input)
          valid_symbols).2.token_end
        = (tree_sitter_zag_external_scanner_scan payload l valid_symbols).2.token_end ∧
      (tree_sitter_zag_external_scanner_scan payload (l.withInput input) valid_symbols).2
        = (tree_sitter_zag_external_scanner_scan payload l valid_symbols).2.withInput input := by
  have key : tree_sitter_zag_external_scanner_scan payload (l.withInput input) valid_symbols
      = ((tree_sitter_zag_external_scanner_scan payload l valid_symbols).1,
        (tree_sitter_zag_external_scanner_scan payload l valid_symbols).2.withInput input) := by
    by_cases hv : valid_symbols TokenType.AUTOMATIC_SEMICOLON = true
    · rw [scan_of_candidate payload l valid_symbols hv] at hagree ⊢
      rw [scan_of_candidate payload _ valid_symbols hv]
      exact scan_automatic_semicolon_local input l hagree
    · rw [tree_sitter_zag_external_scanner_scan, if_neg hv,
        tree_sitter_zag_external_scanner_scan, if_neg hv]
  rw [key]
  exact ⟨rfl, rfl, rfl, rfl⟩

/-- Witness of C19: "\n}x" and "\n}yz" agree up to the bracket the scan stops on. -/
theorem scan_lookahead_local_witness :
    (tree_sitter_zag_external_scanner_scan ()
        (TSLexer.withInput ⟨[10, 125, 120], 0, 7, none, []⟩ [10, 125, 121, 122])
        (fun _ => true)).1
        = (tree_sitter_zag_external_scanner_scan () ⟨[10, 125, 120], 0, 7, none, []⟩
            (fun _ => true)).1 ∧
      (tree_sitter_zag_external_scanner_scan ()
        (TSLexer.withInput ⟨[10, 125, 120], 0, 7, none, []⟩ [10, 125, 121, 122])
        (fun _ => true)).2.pos
        = (tree_sitter_zag_external_scanner_scan () ⟨[10, 125, 120], 0, 7, none, []⟩
            (fun _ => true)).2.pos ∧
      (tree_sitter_zag_external_scanner_scan ()
        (TSLexer.withInput ⟨[10, 125, 120], 0, 7, none, []⟩ [10, 125, 121, 122])
        (fun _ => true)).2.token_end
        = (tree_sitter_zag_external_scanner_scan () ⟨[10, 125, 120], 0, 7, none, []⟩
            (fun _ => true)).2.token_end ∧
      (tree_sitter_zag_external_scanner_scan ()
        (TSLexer.withInput ⟨[10, 125, 120], 0, 7, none, []⟩ [10, 125, 121, 122])
        (fun _ => true)).2
        = TSLexer.withInput
            (tree_sitter_zag_external_scanner_scan () ⟨[10, 125, 120], 0, 7, none, []⟩
              (fun _ => true)).2 [10, 125, 121, 122] :=
  scan_lookahead_local () ⟨[10, 125, 120], 0, 7, none, []⟩ (fun _ => true) [10, 125, 121, 122]
    (by
      intro p _ hp
      rw [scan_of_candidate _ _ _ rfl,
        scan_automatic_semicolon_blanks_closer ⟨[10, 125, 120], 0, 7, none, []⟩ [10] 125 [120]
          rfl (by decide) (by decide) (by decide)] at hp
      have hp1 : p ≤ 1 := hp
      interval_cases p <;> rfl)

end Zag
